import Mathlib

/-!
Verification development for the Data365 social-media-api-cli crawler.

The definitions below are a shallow embedding of the crawl orchestration
core found in `src/modules/utils.py`, `src/modules/facebook/fetch.py`,
`src/modules/facebook/save.py` and `src/run.py`.  The asynchronous code is
sequentialized (a `gather` of effectful operations becomes running them in
list order), remote I/O is replaced by an oracle describing the server's
responses, and unbounded `while True` loops take the stream of responses
(or an explicit fuel) so every function is total; `none` marks a run that
raises or never terminates within the supplied stream.
-/

namespace SMApi

/-! ## Output sink model (`save.py` CSV path + `utils.save_items_to_csv`)

A CSV table is `Option (List ρ)`: `none` means the file does not exist,
`some rows` is the list of data rows (the header row and BOM are not
modelled).  `Sink` additionally carries the in-memory dedup set
(`saved_posts` and friends in `save.py`). -/

/-- Model of `more_itertools.unique_everseen` keyed by `key`, with the
already-seen key set made explicit. -/
def dedupByKey {κ ρ : Type} [DecidableEq κ] (key : ρ → κ) : List ρ → Finset κ → List ρ
  | [], _ => []
  | r :: rs, seen =>
    if key r ∈ seen then dedupByKey key rs seen
    else r :: dedupByKey key rs (insert (key r) seen)

/-- Model of `utils.save_items_to_csv`: drop batch-internal duplicates with
`unique_everseen`, return without touching the file if nothing is left,
otherwise create the file (mode `x`) or append to it (mode `a`). -/
def save_items_to_csv {κ ρ : Type} [DecidableEq κ] (key : ρ → κ)
    (file : Option (List ρ)) (items : List ρ) : Option (List ρ) :=
  let uniq := dedupByKey key items ∅
  if uniq.isEmpty then file
  else
    match file with
    | none => some uniq
    | some rows => some (rows ++ uniq)

/-- One output table: the process-wide dedup set plus the CSV file. -/
structure Sink (κ ρ : Type) where
  saved : Finset κ
  file : Option (List ρ)

/-- Model of the CSV branch of `save.save_posts` (and its siblings
`save_comments`, `save_profiles`, `save_searches_for_posts`,
`save_connections`): filter out records whose key is in the dedup set,
write the rest through `save_items_to_csv`, then add every incoming key to
the dedup set. -/
def saveTable {κ ρ : Type} [DecidableEq κ] (key : ρ → κ)
    (s : Sink κ ρ) (items : List ρ) : Sink κ ρ :=
  let items_to_save := items.filter (fun r => key r ∉ s.saved)
  { saved := s.saved ∪ (items.map key).toFinset,
    file := save_items_to_csv key s.file items_to_save }

/-- Model of the CSV branch of `save.init`: rebuild the dedup set from the
keys already present in the existing output file (empty when the file does
not exist). -/
def save_table_init {κ ρ : Type} [DecidableEq κ] (key : ρ → κ)
    (file : Option (List ρ)) : Sink κ ρ :=
  { saved := ((file.getD []).map key).toFinset, file := file }

/-- A whole run's worth of save calls against one table, in order. -/
def runSaves {κ ρ : Type} [DecidableEq κ] (key : ρ → κ)
    (s : Sink κ ρ) (batches : List (List ρ)) : Sink κ ρ :=
  batches.foldl (saveTable key) s

/-- The sink correctness invariant: the file holds at most one row per
natural key, and every key on file is recorded in the dedup set. -/
def SinkInv {κ ρ : Type} [DecidableEq κ] (key : ρ → κ) (s : Sink κ ρ) : Prop :=
  ((s.file.getD []).map key).Nodup ∧ ∀ r ∈ s.file.getD [], key r ∈ s.saved

/-! ## Remote call client (`utils.make_request`)

`make_request` loops `for n in count()`: on a timeout or connection-level
error, and on an HTTP 429 response, it sleeps
`min(n, 5) * random.uniform(0.75, 1.25)` seconds and retries; any other
response is returned.  The event stream `ev` gives the outcome of each
attempt; `u` is the jitter drawn for each attempt's sleep. -/

structure ApiErrorPayload where
  code : String
  deriving DecidableEq

/-- Model of `utils.ApiResponse` (`data` kept opaque as a string). -/
structure ApiResponse where
  data : Option String
  error : Option ApiErrorPayload
  status : String
  deriving DecidableEq

inductive ReqEvent
  | transient
  | resp (status_code : Nat) (body : ApiResponse)

/-- `true` when attempt `n` produces a response `make_request` returns
(i.e. any response whose HTTP status is not 429). -/
def settlesB (ev : Nat → ReqEvent) (n : Nat) : Bool :=
  match ev n with
  | .transient => false
  | .resp c _ => !(c == 429)

/-- The sleep before retrying after attempt `n`:
`min(n, 5) * random.uniform(0.75, 1.25)`, with the jitter draw `u`. -/
def backoffSleep (n : Nat) (u : ℚ) : ℚ := ((min n 5 : ℕ) : ℚ) * u

/-- Model of `utils.make_request`'s retry loop, started at attempt `n`.
Returns the first non-transient, non-429 response body together with the
list of backoff sleeps performed before it, or `none` when `fuel` attempts
were not enough. -/
def make_request (ev : Nat → ReqEvent) (u : Nat → ℚ) :
    Nat → Nat → Option (ApiResponse × List ℚ)
  | 0, _ => none
  | fuel + 1, n =>
    match ev n with
    | .transient =>
      match make_request ev u fuel (n + 1) with
      | none => none
      | some (r, sl) => some (r, backoffSleep n (u n) :: sl)
    | .resp c body =>
      if c = 429 then
        match make_request ev u fuel (n + 1) with
        | none => none
        | some (r, sl) => some (r, backoffSleep n (u n) :: sl)
      else some (body, [])

/-! ## Single item fetch (`utils.get_item`) -/

inductive GetItemRes
  | ok (d : Option String)
  | notFound
  | apiError
  | typeError
  deriving DecidableEq

/-- Model of `utils.get_item` applied to the response `make_request`
produced: a `fail` status whose error code is `NotFoundError` becomes
`None` (absence), any other non-`ok` status raises `ApiRequestError`
(`apiError`); accessing `resp.error['code']` on a `fail` response with no
error payload raises `TypeError` (`typeError`), mirroring Python. -/
def get_item (resp : ApiResponse) : GetItemRes :=
  if resp.status = "fail" then
    match resp.error with
    | none => .typeError
    | some e => if e.code = "NotFoundError" then .notFound else .apiError
  else if resp.status ≠ "ok" then .apiError
  else .ok resp.data

/-! ## Paginator (`utils.get_collection`)

The server is an oracle from the sent cursor and `max_page_size` to a page
response.  The model returns the yielded batches together with the list of
`(cursor, max_page_size)` pairs sent, one per request; `none` models a
raised `ApiRequestError` or fuel exhaustion. -/

structure PageResp (α : Type) where
  status : String
  items : List α
  cursor : Option String
  has_next_page : Bool
  deriving DecidableEq

/-- Model of `utils.get_collection`: request with the current cursor and
`max_page_size=100`; raise unless `ok`; stop yielding when a page has no
items; yield the page; stop when the server signals no next page; else
continue from the server-provided cursor. -/
def get_collection {α : Type} (server : Option String → Nat → PageResp α) :
    Nat → Option String → Option (List (List α) × List (Option String × Nat))
  | 0, _ => none
  | fuel + 1, cur =>
    let p := server cur 100
    if p.status ≠ "ok" then none
    else if p.items.isEmpty then some ([], [(cur, 100)])
    else if p.has_next_page = false then some ([p.items], [(cur, 100)])
    else
      match get_collection server fuel p.cursor with
      | none => none
      | some (bs, cs) => some (p.items :: bs, (cur, 100) :: cs)

/-- The cursor chain the paginator walks: `chainFrom server c0 0 = c0` and
each later cursor is the one the server returned on the previous page. -/
def chainFrom {α : Type} (server : Option String → Nat → PageResp α)
    (c0 : Option String) : Nat → Option String
  | 0 => c0
  | k + 1 => (server (chainFrom server c0 k) 100).cursor

/-! ## Search item identifier (`fetch.fetch_search_for_posts`, lines 312-317)

`item_id = '/'.join((request.casefold(), from_date.isoformat() or '',
to_date.isoformat() or '', search_type))`.  Python `datetime.isoformat`
for a second-precision value is modelled character by character
(`YYYY-MM-DDTHH:MM:SS`); microseconds or a UTC offset only add a suffix
that never contains `'/'` and keeps distinct datetimes distinct, so they
are omitted.  The query string is taken already `casefold`-normalized, as
`run.py` normalizes it before the call. -/

inductive SearchType
  | top
  | latest
  | hashtag
  deriving DecidableEq

def SearchType.toStr : SearchType → String
  | .top => "top"
  | .latest => "latest"
  | .hashtag => "hashtag"

/-- Two-digit zero-padded field of `%02d` (faithful for values ≤ 99). -/
def pad2 (n : Nat) : List Char := [Nat.digitChar (n / 10 % 10), Nat.digitChar (n % 10)]

/-- Four-digit zero-padded field of `%04d` (faithful for values ≤ 9999). -/
def pad4 (n : Nat) : List Char :=
  [Nat.digitChar (n / 1000 % 10), Nat.digitChar (n / 100 % 10),
   Nat.digitChar (n / 10 % 10), Nat.digitChar (n % 10)]

structure PyDatetime where
  year : Nat
  month : Nat
  day : Nat
  hour : Nat
  minute : Nat
  second : Nat
  deriving DecidableEq

def isoformatChars (d : PyDatetime) : List Char :=
  pad4 d.year ++ '-' :: pad2 d.month ++ '-' :: pad2 d.day ++
    'T' :: pad2 d.hour ++ ':' :: pad2 d.minute ++ ':' :: pad2 d.second

/-- `datetime.isoformat()` for a naive second-precision datetime. -/
def isoformat (d : PyDatetime) : String := String.mk (isoformatChars d)

/-- `d.isoformat() if d is not None else ''` as used at the join sites. -/
def optIsoformat : Option PyDatetime → String
  | none => ""
  | some d => isoformat d

/-- Field bounds under which the fixed-width rendering is faithful. -/
def ValidDt (d : PyDatetime) : Prop :=
  d.year ≤ 9999 ∧ d.month ≤ 99 ∧ d.day ≤ 99 ∧
    d.hour ≤ 99 ∧ d.minute ≤ 99 ∧ d.second ≤ 99

def ValidOptDt : Option PyDatetime → Prop
  | none => True
  | some d => ValidDt d

/-- The composite search task key built in `fetch_search_for_posts`. -/
def searchItemId (q : String) (fromD toD : Option PyDatetime) (ty : SearchType) : String :=
  q ++ "/" ++ optIsoformat fromD ++ "/" ++ optIsoformat toD ++ "/" ++ ty.toStr

/-! ## Crawl orchestrator (`fetch.py`)

Entity payloads keep only the fields the orchestrator inspects (`id`,
`owner_id`/`group_id`, `comments_count`); everything else is opaque and
irrelevant to the claims.  Remote ids are modelled as `Nat` (the code
converts them with `int(...)` wherever they are used as keys), the task
cache key is the id rendered as a string, exactly as the sqlite store
receives it. -/

structure Comment where
  id : Nat
  owner_id : Option Nat
  comments_count : Nat
  deriving DecidableEq

structure Post where
  id : Nat
  owner_id : Option Nat
  group_id : Option Nat
  comments_count : Nat
  deriving DecidableEq

structure Profile where
  id : Nat
  deriving DecidableEq

structure SearchItem where
  id : String
  deriving DecidableEq

/-- One row of `facebook_connections`:
`{'id': int(item_id), 'parent_id': str(parent_item_id), 'collection': collection}`;
the whole triple is the natural key. -/
structure ConnRow where
  id : Nat
  parent_id : String
  collection : String
  deriving DecidableEq

/-- One remote call, recorded in the run log. -/
inductive CallTag
  | itemPost (id : Nat)
  | itemComment (id : Nat)
  | itemProfile (key : String)
  | itemSearch (key : String)
  | pagePostComments (id : Nat)
  | pageCommentReplies (id : Nat)
  | pageProfileFeed (key : String)
  | pageProfileCommunity (key : String)
  | pageSearchPosts (key : String)
  | updateRequest (key : String)
  | updatePoll (key : String)
  deriving DecidableEq

/-- Outcome of `utils.get_item` for one entity: the classification
`get_item` makes of the remote response (`ok` / `None` on NotFoundError /
raised error). -/
inductive GetRes (α : Type)
  | ok (a : α)
  | notFound
  | err
  deriving DecidableEq

/-- The remote API as the orchestrator sees it.  Collections are given as
the stream of page responses the server would return to the successive
requests of `get_collection`; update polling as the stream of statuses the
update endpoint reports. -/
structure Api where
  post : Nat → GetRes Post
  comment : Nat → GetRes Comment
  profile : String → GetRes Profile
  search : String → GetRes SearchItem
  postComments : Nat → List (PageResp Comment)
  commentReplies : Nat → List (PageResp Comment)
  profileFeed : String → List (PageResp Post)
  profileCommunity : String → List (PageResp Post)
  searchPosts : String → List (PageResp Post)
  updateAccepted : String → Bool
  updateStatuses : String → List String

/-- The run state: the sqlite task cache, the five output tables, and the
log of remote calls made so far. -/
structure St where
  tasks : String → Option String
  posts : Sink Nat Post
  comments : Sink Nat Comment
  profiles : Sink Nat Profile
  searches : Sink String SearchItem
  connections : Sink ConnRow ConnRow
  log : List CallTag

/-- `utils.set_task_status` (an `INSERT OR REPLACE` upsert). -/
def setTask (st : St) (k v : String) : St :=
  { st with tasks := fun x => if x = k then some v else st.tasks x }

def logCall (st : St) (t : CallTag) : St :=
  { st with log := st.log ++ [t] }

def save_posts (st : St) (items : List Post) : St :=
  { st with posts := saveTable Post.id st.posts items }

def save_comments (st : St) (items : List Comment) : St :=
  { st with comments := saveTable Comment.id st.comments items }

def save_profiles (st : St) (items : List Profile) : St :=
  { st with profiles := saveTable Profile.id st.profiles items }

def save_searches_for_posts (st : St) (items : List SearchItem) : St :=
  { st with searches := saveTable SearchItem.id st.searches items }

/-- `save.save_connections`: build the triple rows and save them with the
whole triple as primary key. -/
def save_connections (st : St) (parent : String) (ids : List Nat) (coll : String) : St :=
  { st with connections :=
      saveTable (fun r => r) st.connections (ids.map fun i => ⟨i, parent, coll⟩) }

/-- The loop-exit test of the update polling loop, transcribed from
`fetch.py`: `task_status in ('finished', 'fail', 'unknown')`.  Note the
literal `'fail'`, although `utils.get_update_status` declares the status
domain as `'finished' | 'failed' | 'unknown' | 'created' | 'pending'`. -/
def stopPolling (s : String) : Bool :=
  s == "finished" || s == "fail" || s == "unknown"

/-- The `while True: sleep; poll; if stop: break` loop, over the stream of
statuses the update endpoint reports.  `none`: the loop is still polling
after the whole stream. -/
def pollUpdate (tag : CallTag) : List String → St → Option St
  | [], _ => none
  | s :: rest, st =>
    let st1 := logCall st tag
    if stopPolling s then some st1 else pollUpdate tag rest st1

/-- The `if update:` block shared by the fetch functions: when no task row
exists, `request_update` (raising unless the API answers `accepted`) and
record `created`; then poll until `stopPolling` and record `collecting`. -/
def updatePhase (api : Api) (key : String) (st : St) : Option St :=
  match (if st.tasks key = none then
           (let st1 := logCall st (.updateRequest key)
            if api.updateAccepted key then some (setTask st1 key "created") else none)
         else some st) with
  | none => none
  | some st2 =>
    match pollUpdate (.updatePoll key) (api.updateStatuses key) st2 with
    | none => none
    | some st3 => some (setTask st3 key "collecting")

/-- The `if max_comments is not None and fetched_count >= max_comments`
break test. -/
def maxReached (m : Option Nat) (cnt : Nat) : Bool :=
  match m with
  | none => false
  | some k => decide (k ≤ cnt)

/-- Python truthiness of an optional integer field (`None` and `0` are
falsy). -/
def truthyId : Option Nat → Option Nat
  | some n => if n = 0 then none else some n
  | none => none

/-- One orchestrator invocation, tagged by entity kind with the arguments
of the corresponding `fetch.py` function.  `update=True` only on top-level
invocations (set by `run.py`); children are spawned with the defaults. -/
inductive FetchCall
  | comment (item_id : Nat) (this_item : Option Comment)
      (fetch_comments : Bool) (max_comments : Option Nat)
  | post (item_id : Nat) (update : Bool) (this_item : Option Post)
      (fetch_comments : Bool) (max_comments : Option Nat)
  | profile (item_id : String) (update : Bool) (this_item : Option Profile)
      (fetch_feed_posts fetch_community_posts fetch_comments : Bool)
      (max_posts max_comments : Option Nat)
  | search (request : String) (update : Bool) (this_item : Option SearchItem)
      (fetch_comments : Bool) (max_posts max_comments : Option Nat)
      (from_date to_date : Option PyDatetime) (search_type : SearchType)

/-- The task-cache key each invocation checks and finally marks. -/
def FetchCall.key : FetchCall → String
  | .comment i _ _ _ => toString i
  | .post i _ _ _ _ => toString i
  | .profile i _ _ _ _ _ _ _ => i
  | .search q _ _ _ _ _ fd td ty => searchItemId q fd td ty

/-! The four fetch functions plus their `async for batch in get_collection`
loops, sequentialized: the coroutines a loop iteration gathers (child
fetches, `save_*` of the batch, `save_connections`) run in list order
before the `max_*` break test, exactly the set of operations the Python
code awaits.  Every recursive step spends one unit of fuel; `none` is a
raised error, a never-settling poll loop, or fuel exhaustion.  The
pagination logic of `get_collection` is inlined into the loops because the
generator is driven lazily: a `break` at the bottom of an iteration means
the next page is never requested. -/

mutual

/-- Dispatch of one invocation of `fetch_comment` / `fetch_post` /
`fetch_profile` / `fetch_search_for_posts` (`fetch.py`). -/
def fetchRun (api : Api) : Nat → FetchCall → St → Option St
  | 0, _, _ => none
  | f + 1, .comment item_id this_item fc mc, st =>
    let key := toString item_id
    if st.tasks key = some "finished" then some st
    else
      match (match this_item with
             | some cm => some (some cm, st)
             | none =>
               let st1 := logCall st (.itemComment item_id)
               match api.comment item_id with
               | .err => none
               | .notFound => some (none, st1)
               | .ok cm => some (some cm, save_comments st1 [cm])) with
      | none => none
      | some (none, st2) => some (setTask st2 key "finished")
      | some (some cm, st2) =>
        match (match truthyId cm.owner_id with
               | some o => fetchRun api f
                   (.profile (toString o) false none false false false none none) st2
               | none => some st2) with
        | none => none
        | some st3 =>
          match (if fc = true ∧ cm.comments_count ≠ 0 then
                   commentPages api f (api.commentReplies item_id)
                     (.pageCommentReplies item_id) (toString cm.id)
                     "facebook/comment/replies" fc mc 0 st3
                 else some st3) with
          | none => none
          | some st4 => some (setTask st4 key "finished")
  | f + 1, .post item_id upd this_item fc mc, st =>
    let key := toString item_id
    if st.tasks key = some "finished" then some st
    else
      match (if upd then updatePhase api key st else some st) with
      | none => none
      | some stU =>
        match (match this_item with
               | some p => some (some p, stU)
               | none =>
                 let st1 := logCall stU (.itemPost item_id)
                 match api.post item_id with
                 | .err => none
                 | .notFound => some (none, st1)
                 | .ok p => some (some p, save_posts st1 [p])) with
        | none => none
        | some (none, st2) => some (setTask st2 key "finished")
        | some (some p, st2) =>
          match (match truthyId p.owner_id with
                 | some o => fetchRun api f
                     (.profile (toString o) false none false false false none none) st2
                 | none => some st2) with
          | none => none
          | some st3 =>
            match (match truthyId p.group_id with
                   | some g => fetchRun api f
                       (.profile (toString g) false none false false false none none) st3
                   | none => some st3) with
            | none => none
            | some st4 =>
              match (if fc = true ∧ p.comments_count ≠ 0 then
                       commentPages api f (api.postComments item_id)
                         (.pagePostComments item_id) (toString p.id)
                         "facebook/post/comments" fc mc 0 st4
                     else some st4) with
              | none => none
              | some st5 => some (setTask st5 key "finished")
  | f + 1, .profile item_id upd this_item ffp fcp fc mp mc, st =>
    if st.tasks item_id = some "finished" then some st
    else
      match (if upd then updatePhase api item_id st else some st) with
      | none => none
      | some stU =>
        match (match this_item with
               | some pr => some (some pr, stU)
               | none =>
                 let st1 := logCall stU (.itemProfile item_id)
                 match api.profile item_id with
                 | .err => none
                 | .notFound => some (none, st1)
                 | .ok pr => some (some pr, save_profiles st1 [pr])) with
        | none => none
        | some (none, st2) => some (setTask st2 item_id "finished")
        | some (some pr, st2) =>
          match (if ffp then
                   postPages api f (api.profileFeed item_id)
                     (.pageProfileFeed item_id) (toString pr.id)
                     "facebook/profile/feed/posts" fc mc mp 0 st2
                 else some st2) with
          | none => none
          | some st3 =>
            match (if fcp then
                     postPages api f (api.profileCommunity item_id)
                       (.pageProfileCommunity item_id) (toString pr.id)
                       "facebook/profile/community/posts" fc mc mp 0 st3
                   else some st3) with
            | none => none
            | some st4 => some (setTask st4 item_id "finished")
  | f + 1, .search request upd this_item fc mp mc fd td ty, st =>
    let key := searchItemId request fd td ty
    if st.tasks key = some "finished" then some st
    else
      match (if upd then updatePhase api key st else some st) with
      | none => none
      | some stU =>
        match (match this_item with
               | some s0 => some (some s0, stU)
               | none =>
                 let st1 := logCall stU (.itemSearch key)
                 match api.search key with
                 | .err => none
                 | .notFound => some (none, st1)
                 | .ok s0 => some (some s0, save_searches_for_posts st1 [s0])) with
        | none => none
        | some (none, st2) => some (setTask st2 key "finished")
        | some (some s0, st2) =>
          match postPages api f (api.searchPosts key) (.pageSearchPosts key)
              s0.id "facebook/search/posts" fc mc mp 0 st2 with
          | none => none
          | some st3 => some (setTask st3 key "finished")

/-- The comments/replies pagination loop of `fetch_post` lines 139-167 and
`fetch_comment` lines 49-77: request a page, stop on empty, spawn a
`fetch_comment` per item, save the batch and its connection rows, then
break once `max_comments` is reached or the server has no next page. -/
def commentPages (api : Api) : Nat → List (PageResp Comment) → CallTag → String →
    String → Bool → Option Nat → Nat → St → Option St
  | 0, _, _, _, _, _, _, _, _ => none
  | _ + 1, [], _, _, _, _, _, _, _ => none
  | f + 1, p :: rest, tag, parent, coll, fc, mc, cnt, st =>
    let st1 := logCall st tag
    if p.status ≠ "ok" then none
    else if p.items.isEmpty then some st1
    else
      match commentChildren api f p.items fc mc st1 with
      | none => none
      | some st2 =>
        let st3 := save_comments st2 p.items
        let st4 := save_connections st3 parent (p.items.map Comment.id) coll
        let cnt2 := cnt + p.items.length
        if maxReached mc cnt2 then some st4
        else if p.has_next_page = false then some st4
        else commentPages api f rest tag parent coll fc mc cnt2 st4

/-- The per-batch fan-out of comment children:
`fetch_comment(item_id=c['id'], this_item=c, ...)` for each item. -/
def commentChildren (api : Api) : Nat → List Comment → Bool → Option Nat → St → Option St
  | 0, _, _, _, _ => none
  | _ + 1, [], _, _, st => some st
  | f + 1, cm :: rest, fc, mc, st =>
    match fetchRun api f (.comment cm.id (some cm) fc mc) st with
    | none => none
    | some st1 => commentChildren api f rest fc mc st1

/-- The feed/community/search posts pagination loops (`fetch_profile`
lines 229-291, `fetch_search_for_posts` lines 356-385), same shape as
`commentPages` with `fetch_post` children and a `max_posts` bound. -/
def postPages (api : Api) : Nat → List (PageResp Post) → CallTag → String →
    String → Bool → Option Nat → Option Nat → Nat → St → Option St
  | 0, _, _, _, _, _, _, _, _, _ => none
  | _ + 1, [], _, _, _, _, _, _, _, _ => none
  | f + 1, p :: rest, tag, parent, coll, fc, mc, mp, cnt, st =>
    let st1 := logCall st tag
    if p.status ≠ "ok" then none
    else if p.items.isEmpty then some st1
    else
      match postChildren api f p.items fc mc st1 with
      | none => none
      | some st2 =>
        let st3 := save_posts st2 p.items
        let st4 := save_connections st3 parent (p.items.map Post.id) coll
        let cnt2 := cnt + p.items.length
        if maxReached mp cnt2 then some st4
        else if p.has_next_page = false then some st4
        else postPages api f rest tag parent coll fc mc mp cnt2 st4

/-- The per-batch fan-out of post children:
`fetch_post(item_id=p['id'], this_item=p, ...)` for each item. -/
def postChildren (api : Api) : Nat → List Post → Bool → Option Nat → St → Option St
  | 0, _, _, _, _ => none
  | _ + 1, [], _, _, st => some st
  | f + 1, p :: rest, fc, mc, st =>
    match fetchRun api f (.post p.id false (some p) fc mc) st with
    | none => none
    | some st1 => postChildren api f rest fc mc st1

end

/-- `fetch.fetch_comment` with `run.py`-style fuel threading. -/
def fetch_comment (api : Api) (fuel : Nat) (item_id : Nat) (this_item : Option Comment)
    (fetch_comments : Bool) (max_comments : Option Nat) (st : St) : Option St :=
  fetchRun api fuel (.comment item_id this_item fetch_comments max_comments) st

/-- `fetch.fetch_post`. -/
def fetch_post (api : Api) (fuel : Nat) (item_id : Nat) (update : Bool)
    (this_item : Option Post) (fetch_comments : Bool) (max_comments : Option Nat)
    (st : St) : Option St :=
  fetchRun api fuel (.post item_id update this_item fetch_comments max_comments) st

/-- `fetch.fetch_profile`. -/
def fetch_profile (api : Api) (fuel : Nat) (item_id : String) (update : Bool)
    (this_item : Option Profile) (fetch_feed_posts fetch_community_posts fetch_comments : Bool)
    (max_posts max_comments : Option Nat) (st : St) : Option St :=
  fetchRun api fuel (.profile item_id update this_item fetch_feed_posts
    fetch_community_posts fetch_comments max_posts max_comments) st

/-- `fetch.fetch_search_for_posts`. -/
def fetch_search_for_posts (api : Api) (fuel : Nat) (request : String) (update : Bool)
    (this_item : Option SearchItem) (fetch_comments : Bool)
    (max_posts max_comments : Option Nat) (from_date to_date : Option PyDatetime)
    (search_type : SearchType) (st : St) : Option St :=
  fetchRun api fuel (.search request update this_item fetch_comments max_posts
    max_comments from_date to_date search_type) st

/-! ## Top-level scheduler (`utils.schedule`)

A top-level invocation is abstracted to its id and whether it eventually
raises.  Concurrency is abstracted by an oracle: round `k` of `rounds`
lists the ids of in-flight tasks that have completed when the `k`-th
`asyncio.wait(..., timeout=5, return_when=FIRST_EXCEPTION)` returns (an
empty round is a wait that timed out with no completion).  The loop refills
the in-flight set up to `MAX_QUEUE_SIZE` from the stream, breaks when both
are empty, and on a completed task that raised (`gather(*done)`) cancels
every still-pending task and re-raises.  `none`: the oracle rounds ran out
before the run settled. -/

structure SchedTask where
  id : Nat
  fails : Bool
  deriving DecidableEq

/-- The outcome of a `schedule` run.  The code itself only counts
completions (`finished_count`); the model keeps the completed invocations
as lists — ghost data over the same control flow — so that the failure
case can account for every invocation of the stream: `finished_before`
are the tasks that completed in earlier wait rounds, `done_round` the
tasks (the failing one among them) that completed in the round whose
`gather` raised, `cancelled` the still-pending in-flight tasks the loop
cancels, and `unstarted` the untouched rest of the stream. -/
inductive SchedResult
  | ok (finished : List SchedTask) (max_inflight : Nat)
  | failed (failing : SchedTask) (done_round cancelled unstarted finished_before :
      List SchedTask) (max_inflight : Nat)
  deriving DecidableEq

/-- The inner `while has_more_coroutines and len(tasks) < MAX_QUEUE_SIZE`
refill loop: move stream items into the in-flight list until it is full or
the stream is exhausted. -/
def refill (maxQ : Nat) : List SchedTask → List SchedTask → List SchedTask × List SchedTask
  | [], infl => ([], infl)
  | t :: rest, infl =>
    if infl.length < maxQ then refill maxQ rest (infl ++ [t])
    else (t :: rest, infl)

/-- The `while True` body of `utils.schedule`, tracking the number of
finished invocations and the maximum in-flight set size observed.  Each
iteration refills the in-flight set up to `maxQ` from the stream, breaks
when nothing is left, splits the in-flight set by the oracle round into
completed and pending, and either fails fast (first completed task that
raised: cancel the pending ones, report the untouched stream rest) or
counts the completions and continues. -/
def scheduleLoop (maxQ : Nat) : List (List Nat) → List SchedTask → List SchedTask →
    List SchedTask → Nat → Option SchedResult
  | [], stream, infl, fin, mi =>
    if (refill maxQ stream infl).2.isEmpty && (refill maxQ stream infl).1.isEmpty then
      some (.ok fin (max mi (refill maxQ stream infl).2.length))
    else none
  | r :: rounds1, stream, infl, fin, mi =>
    if (refill maxQ stream infl).2.isEmpty && (refill maxQ stream infl).1.isEmpty then
      some (.ok fin (max mi (refill maxQ stream infl).2.length))
    else
      match ((refill maxQ stream infl).2.filter
          (fun t => r.contains t.id)).find? (fun t => t.fails) with
      | some t =>
        some (.failed t ((refill maxQ stream infl).2.filter (fun t => r.contains t.id))
          ((refill maxQ stream infl).2.filter (fun t => !(r.contains t.id)))
          (refill maxQ stream infl).1 fin (max mi (refill maxQ stream infl).2.length))
      | none =>
        scheduleLoop maxQ rounds1 (refill maxQ stream infl).1
          ((refill maxQ stream infl).2.filter (fun t => !(r.contains t.id)))
          (fin ++ (refill maxQ stream infl).2.filter (fun t => r.contains t.id))
          (max mi (refill maxQ stream infl).2.length)

/-- `utils.schedule` on a finite stream of top-level invocations. -/
def schedule (maxQ : Nat) (rounds : List (List Nat)) (stream : List SchedTask) :
    Option SchedResult :=
  scheduleLoop maxQ rounds stream [] [] 0

/-! ## Concrete scenarios used by the claims -/

/-- A fresh run state: empty task cache, no output files, no calls yet. -/
def stInit : St :=
  { tasks := fun _ => none,
    posts := ⟨∅, none⟩, comments := ⟨∅, none⟩, profiles := ⟨∅, none⟩,
    searches := ⟨∅, none⟩, connections := ⟨∅, none⟩, log := [] }

/-- The post of the spec's concrete scenario: id 123, `comments_count=5`,
no owner/group references. -/
def postC1 : Post := ⟨123, none, none, 5⟩

/-- A leaf comment of the scenario (no owner, no replies). -/
def cmtC1 (n : Nat) : Comment := ⟨n, none, 0⟩

/-- The scenario's mock API: post 123 with a comments collection paginated
as two pages of 3 then 2 items, and an update job that is accepted and
reports `finished` on the first poll. -/
def apiC1 : Api :=
  { post := fun i => if i = 123 then .ok postC1 else .err,
    comment := fun _ => .err,
    profile := fun _ => .err,
    search := fun _ => .err,
    postComments := fun i =>
      if i = 123 then
        [⟨"ok", [cmtC1 1, cmtC1 2, cmtC1 3], some "cursor1", true⟩,
         ⟨"ok", [cmtC1 4, cmtC1 5], none, false⟩]
      else [],
    commentReplies := fun _ => [],
    profileFeed := fun _ => [],
    profileCommunity := fun _ => [],
    searchPosts := fun _ => [],
    updateAccepted := fun _ => true,
    updateStatuses := fun k => if k = "123" then ["finished"] else [] }

/-- The scenario run: `fetch_post("123", update=True, fetch_comments=True,
max_comments=2)` as `run.py facebook-post` issues it. -/
def runC1 : Option St := fetch_post apiC1 20 123 true none true (some 2) stInit

/-- A mock API where every single-item endpoint answers NotFoundError and
nothing else is reachable. -/
def apiNF : Api :=
  { post := fun _ => .notFound, comment := fun _ => .notFound,
    profile := fun _ => .notFound, search := fun _ => .notFound,
    postComments := fun _ => [], commentReplies := fun _ => [],
    profileFeed := fun _ => [], profileCommunity := fun _ => [],
    searchPosts := fun _ => [], updateAccepted := fun _ => false,
    updateStatuses := fun _ => [] }

/-- A task cache in which item `"7"` is already `finished`. -/
def stFin : St :=
  { stInit with tasks := fun k => if k = "7" then some "finished" else none }

/-- A two-page mock collection server for the paginator scenario. -/
def serverW : Option String → Nat → PageResp Nat := fun c _ =>
  if c = none then ⟨"ok", [1, 2], some "c1", true⟩
  else if c = some "c1" then ⟨"ok", [3], none, false⟩
  else ⟨"ok", [], none, false⟩

/-- An attempt stream for the retry scenario: one timeout, then HTTP 200. -/
def bodyW : ApiResponse := ⟨some "payload", none, "ok"⟩

def evW : Nat → ReqEvent := fun k => if k = 0 then .transient else .resp 200 bodyW

/-- A second post used by the persistence witness. -/
def postW : Post := ⟨77, none, none, 0⟩

/-- A concrete datetime used by the search-id witness. -/
def dtW : PyDatetime := ⟨2021, 1, 1, 2, 16, 32⟩

/-! ## Theorems -/

/-! Unfolding equations for the mutual fetch functions (definitional). -/

theorem fetchRun_comment_eq (api : Api) (f : Nat) (item_id : Nat)
    (this_item : Option Comment) (fc : Bool) (mc : Option Nat) (st : St) :
    fetchRun api (f + 1) (.comment item_id this_item fc mc) st =
    (let key := toString item_id
     if st.tasks key = some "finished" then some st
     else
       match (match this_item with
              | some cm => some (some cm, st)
              | none =>
                let st1 := logCall st (.itemComment item_id)
                match api.comment item_id with
                | .err => none
                | .notFound => some (none, st1)
                | .ok cm => some (some cm, save_comments st1 [cm])) with
       | none => none
       | some (none, st2) => some (setTask st2 key "finished")
       | some (some cm, st2) =>
         match (match truthyId cm.owner_id with
                | some o => fetchRun api f
                    (.profile (toString o) false none false false false none none) st2
                | none => some st2) with
         | none => none
         | some st3 =>
           match (if fc = true ∧ cm.comments_count ≠ 0 then
                    commentPages api f (api.commentReplies item_id)
                      (.pageCommentReplies item_id) (toString cm.id)
                      "facebook/comment/replies" fc mc 0 st3
                  else some st3) with
           | none => none
           | some st4 => some (setTask st4 key "finished")) := rfl

theorem fetchRun_post_eq (api : Api) (f : Nat) (item_id : Nat) (upd : Bool)
    (this_item : Option Post) (fc : Bool) (mc : Option Nat) (st : St) :
    fetchRun api (f + 1) (.post item_id upd this_item fc mc) st =
    (let key := toString item_id
     if st.tasks key = some "finished" then some st
     else
       match (if upd then updatePhase api key st else some st) with
       | none => none
       | some stU =>
         match (match this_item with
                | some p => some (some p, stU)
                | none =>
                  let st1 := logCall stU (.itemPost item_id)
                  match api.post item_id with
                  | .err => none
                  | .notFound => some (none, st1)
                  | .ok p => some (some p, save_posts st1 [p])) with
         | none => none
         | some (none, st2) => some (setTask st2 key "finished")
         | some (some p, st2) =>
           match (match truthyId p.owner_id with
                  | some o => fetchRun api f
                      (.profile (toString o) false none false false false none none) st2
                  | none => some st2) with
           | none => none
           | some st3 =>
             match (match truthyId p.group_id with
                    | some g => fetchRun api f
                        (.profile (toString g) false none false false false none none) st3
                    | none => some st3) with
             | none => none
             | some st4 =>
               match (if fc = true ∧ p.comments_count ≠ 0 then
                        commentPages api f (api.postComments item_id)
                          (.pagePostComments item_id) (toString p.id)
                          "facebook/post/comments" fc mc 0 st4
                      else some st4) with
               | none => none
               | some st5 => some (setTask st5 key "finished")) := rfl

theorem fetchRun_profile_eq (api : Api) (f : Nat) (item_id : String) (upd : Bool)
    (this_item : Option Profile) (ffp fcp fc : Bool) (mp mc : Option Nat) (st : St) :
    fetchRun api (f + 1) (.profile item_id upd this_item ffp fcp fc mp mc) st =
    (if st.tasks item_id = some "finished" then some st
     else
       match (if upd then updatePhase api item_id st else some st) with
       | none => none
       | some stU =>
         match (match this_item with
                | some pr => some (some pr, stU)
                | none =>
                  let st1 := logCall stU (.itemProfile item_id)
                  match api.profile item_id with
                  | .err => none
                  | .notFound => some (none, st1)
                  | .ok pr => some (some pr, save_profiles st1 [pr])) with
         | none => none
         | some (none, st2) => some (setTask st2 item_id "finished")
         | some (some pr, st2) =>
           match (if ffp then
                    postPages api f (api.profileFeed item_id)
                      (.pageProfileFeed item_id) (toString pr.id)
                      "facebook/profile/feed/posts" fc mc mp 0 st2
                  else some st2) with
           | none => none
           | some st3 =>
             match (if fcp then
                      postPages api f (api.profileCommunity item_id)
                        (.pageProfileCommunity item_id) (toString pr.id)
                        "facebook/profile/community/posts" fc mc mp 0 st3
                    else some st3) with
             | none => none
             | some st4 => some (setTask st4 item_id "finished")) := rfl

theorem fetchRun_search_eq (api : Api) (f : Nat) (request : String) (upd : Bool)
    (this_item : Option SearchItem) (fc : Bool) (mp mc : Option Nat)
    (fd td : Option PyDatetime) (ty : SearchType) (st : St) :
    fetchRun api (f + 1) (.search request upd this_item fc mp mc fd td ty) st =
    (let key := searchItemId request fd td ty
     if st.tasks key = some "finished" then some st
     else
       match (if upd then updatePhase api key st else some st) with
       | none => none
       | some stU =>
         match (match this_item with
                | some s0 => some (some s0, stU)
                | none =>
                  let st1 := logCall stU (.itemSearch key)
                  match api.search key with
                  | .err => none
                  | .notFound => some (none, st1)
                  | .ok s0 => some (some s0, save_searches_for_posts st1 [s0])) with
         | none => none
         | some (none, st2) => some (setTask st2 key "finished")
         | some (some s0, st2) =>
           match postPages api f (api.searchPosts key) (.pageSearchPosts key)
               s0.id "facebook/search/posts" fc mc mp 0 st2 with
           | none => none
           | some st3 => some (setTask st3 key "finished")) := rfl

theorem commentPages_cons_eq (api : Api) (f : Nat) (p : PageResp Comment)
    (rest : List (PageResp Comment)) (tag : CallTag) (parent coll : String)
    (fc : Bool) (mc : Option Nat) (cnt : Nat) (st : St) :
    commentPages api (f + 1) (p :: rest) tag parent coll fc mc cnt st =
    (let st1 := logCall st tag
     if p.status ≠ "ok" then none
     else if p.items.isEmpty then some st1
     else
       match commentChildren api f p.items fc mc st1 with
       | none => none
       | some st2 =>
         let st3 := save_comments st2 p.items
         let st4 := save_connections st3 parent (p.items.map Comment.id) coll
         let cnt2 := cnt + p.items.length
         if maxReached mc cnt2 then some st4
         else if p.has_next_page = false then some st4
         else commentPages api f rest tag parent coll fc mc cnt2 st4) := rfl

theorem commentChildren_cons_eq (api : Api) (f : Nat) (cm : Comment)
    (rest : List Comment) (fc : Bool) (mc : Option Nat) (st : St) :
    commentChildren api (f + 1) (cm :: rest) fc mc st =
    (match fetchRun api f (.comment cm.id (some cm) fc mc) st with
     | none => none
     | some st1 => commentChildren api f rest fc mc st1) := rfl

theorem postPages_cons_eq (api : Api) (f : Nat) (p : PageResp Post)
    (rest : List (PageResp Post)) (tag : CallTag) (parent coll : String)
    (fc : Bool) (mc mp : Option Nat) (cnt : Nat) (st : St) :
    postPages api (f + 1) (p :: rest) tag parent coll fc mc mp cnt st =
    (let st1 := logCall st tag
     if p.status ≠ "ok" then none
     else if p.items.isEmpty then some st1
     else
       match postChildren api f p.items fc mc st1 with
       | none => none
       | some st2 =>
         let st3 := save_posts st2 p.items
         let st4 := save_connections st3 parent (p.items.map Post.id) coll
         let cnt2 := cnt + p.items.length
         if maxReached mp cnt2 then some st4
         else if p.has_next_page = false then some st4
         else postPages api f rest tag parent coll fc mc mp cnt2 st4) := rfl

theorem postChildren_cons_eq (api : Api) (f : Nat) (p : Post)
    (rest : List Post) (fc : Bool) (mc : Option Nat) (st : St) :
    postChildren api (f + 1) (p :: rest) fc mc st =
    (match fetchRun api f (.post p.id false (some p) fc mc) st with
     | none => none
     | some st1 => postChildren api f rest fc mc st1) := rfl

/-- C1 (counterexample): in the spec's concrete scenario — post `"123"`
with `fetch_comments=true`, `max_comments=2`, comments paginated as pages
of 3 then 2 — the run saves 3 comments and 3 connection rows with
`collection_name="facebook/post/comments"`, so the claimed bounds "at most
2 comments" and "at most 2 connection rows" are false on the code. -/
theorem claim1_false_at_scenario :
    (runC1.map fun st =>
      ((st.comments.file.getD []).length,
       ((st.connections.file.getD []).filter
         (fun r => r.collection = "facebook/post/comments")).length)) = some (3, 3) ∧
    ¬ ((3 : Nat) ≤ 2) := by
  exact ⟨by decide, by decide⟩

/-- C1 (amended): in the concrete scenario the orchestrator stops
paginating after the first batch (the one containing the 2nd comment,
issuing exactly 1 page request), saves the post exactly once, saves
exactly the 3 comments of that batch, and records exactly 3 connection
rows with `collection_name="facebook/post/comments"`. -/
theorem claim1_scenario_behaviour :
    (runC1.map fun st =>
      (st.log.count (CallTag.pagePostComments 123),
       (st.posts.file.getD []).length,
       (st.comments.file.getD []).map Comment.id,
       ((st.connections.file.getD []).filter
         (fun r => r.collection = "facebook/post/comments")).length)) =
      some (1, 1, [1, 2, 3], 3) := by
  decide

/-- C2: the update-status polling loop's stop set is
`('finished', 'fail', 'unknown')`, so on the declared status `'failed'`
(see the `Literal` return type of `utils.get_update_status`) the loop
never exits — polling any number of consecutive `'failed'` reports leaves
the loop still running, while `'fail'`, a value outside the declared
status domain, would stop it.  The claim (and the spec) say the loop stops
on `'failed'`: the code contradicts its own type declaration. -/
theorem claim2_update_poll_divergence :
    (∀ (n : Nat) (tag : CallTag) (st : St),
      pollUpdate tag (List.replicate n "failed") st = none) ∧
    stopPolling "failed" = false ∧ stopPolling "created" = false ∧
    stopPolling "pending" = false ∧ stopPolling "finished" = true ∧
    stopPolling "fail" = true ∧ stopPolling "unknown" = true := by
  refine ⟨?_, by decide, by decide, by decide, by decide, by decide, by decide⟩
  intro n
  induction n with
  | zero => intro tag st; rfl
  | succ m ih =>
    intro tag st
    rw [List.replicate_succ]
    unfold pollUpdate
    rw [if_neg (by decide)]
    exact ih tag _

/-- C10: a save call with an empty batch, or a batch whose every record's
natural key is already in the dedup set, leaves the sink completely
unchanged — no file is created or appended to and the dedup set is the
same set afterwards. -/
theorem claim10_save_noop : ∀ {κ ρ : Type} [DecidableEq κ] (key : ρ → κ)
    (s : Sink κ ρ) (items : List ρ),
    (items = [] ∨ ∀ r ∈ items, key r ∈ s.saved) →
    saveTable key s items = s := by
  intro κ ρ _ key s items h
  have hfilter : items.filter (fun r => key r ∉ s.saved) = [] := by
    rw [List.filter_eq_nil_iff]
    intro r hr
    rcases h with h | h
    · subst h; simp at hr
    · simpa using h r hr
  have hsaved : s.saved ∪ (items.map key).toFinset = s.saved := by
    apply Finset.union_eq_left.mpr
    intro x hx
    rcases List.mem_map.mp (List.mem_toFinset.mp hx) with ⟨r, hr, rfl⟩
    rcases h with h | h
    · subst h; simp at hr
    · exact h r hr
  cases s with
  | mk saved file =>
    unfold saveTable save_items_to_csv
    simp only at hfilter hsaved ⊢
    rw [hfilter, hsaved]
    simp [dedupByKey]

/-- C10 witness at a concrete sink and batch. -/
theorem claim10_save_noop_witness :
    saveTable Post.id ⟨{123}, some [postC1]⟩ [postC1] = ⟨{123}, some [postC1]⟩ :=
  claim10_save_noop Post.id ⟨{123}, some [postC1]⟩ [postC1]
    (Or.inr (by intro r hr; simp at hr; subst hr; decide))

/-- C7: `utils.get_item` turns a `fail` response carrying error code
`NotFoundError` into the absent result `None`; every other non-`ok`
response (with the error payload the API contract promises on failure)
raises `ApiRequestError`, which this layer does not retry; and a not-found
single-item fetch lets the invocation complete normally — `fetch_post` on
a NotFoundError answer performs exactly the one item request, saves
nothing, and marks the task `finished`. -/
theorem claim7_get_item_taxonomy :
    (∀ resp : ApiResponse, resp.status = "fail" →
      ∀ e, resp.error = some e → e.code = "NotFoundError" →
        get_item resp = .notFound) ∧
    (∀ resp : ApiResponse, resp.status ≠ "ok" →
      (resp.status = "fail" → ∃ e, resp.error = some e ∧ e.code ≠ "NotFoundError") →
        get_item resp = .apiError) ∧
    (∀ (api : Api) (f item_id : Nat) (fc : Bool) (mc : Option Nat) (st : St),
      api.post item_id = .notFound →
      st.tasks (toString item_id) ≠ some "finished" →
      fetch_post api (f + 1) item_id false none fc mc st =
        some (setTask (logCall st (.itemPost item_id)) (toString item_id) "finished")) := by
  refine ⟨?_, ?_, ?_⟩
  · intro resp hf e he hc
    unfold get_item
    rw [if_pos hf, he]
    simp [hc]
  · intro resp hok hfe
    unfold get_item
    by_cases hf : resp.status = "fail"
    · rcases hfe hf with ⟨e, he, hc⟩
      rw [if_pos hf, he]
      simp [hc]
    · rw [if_neg hf, if_pos hok]
  · intro api f item_id fc mc st hnf hfin
    unfold fetch_post
    rw [fetchRun_post_eq]
    rw [if_neg hfin]
    simp [hnf]

/-- C7 witness: concrete responses for each taxonomy branch and a concrete
not-found `fetch_post` run. -/
theorem claim7_get_item_taxonomy_witness :
    get_item ⟨none, some ⟨"NotFoundError"⟩, "fail"⟩ = .notFound ∧
    get_item ⟨none, some ⟨"AccessError"⟩, "fail"⟩ = .apiError ∧
    get_item ⟨none, some ⟨"AccessError"⟩, "accepted"⟩ = .apiError ∧
    fetch_post apiNF 1 7 false none false none stInit =
      some (setTask (logCall stInit (.itemPost 7)) (toString 7) "finished") := by
  refine ⟨?_, ?_, ?_, ?_⟩
  · exact claim7_get_item_taxonomy.1 ⟨none, some ⟨"NotFoundError"⟩, "fail"⟩ rfl
      ⟨"NotFoundError"⟩ rfl rfl
  · exact claim7_get_item_taxonomy.2.1 ⟨none, some ⟨"AccessError"⟩, "fail"⟩ (by decide)
      (fun _ => ⟨⟨"AccessError"⟩, rfl, by decide⟩)
  · exact claim7_get_item_taxonomy.2.1 ⟨none, some ⟨"AccessError"⟩, "accepted"⟩ (by decide)
      (fun h => absurd h (by decide))
  · exact claim7_get_item_taxonomy.2.2 apiNF 0 7 false none stInit rfl (by decide)

/-- Helper for C9: the retry loop started at attempt `n`, when the next
`M` attempts fail (timeout/connection error or HTTP 429) and attempt
`n + M` settles, returns that response after exactly one backoff sleep per
failed attempt. -/
theorem make_request_run (ev : Nat → ReqEvent) (u : Nat → ℚ) :
    ∀ (M n : Nat) (c : Nat) (body : ApiResponse),
    (∀ k, k < M → settlesB ev (n + k) = false) →
    ev (n + M) = .resp c body → c ≠ 429 →
    make_request ev u (M + 1) n =
      some (body, (List.range M).map (fun j => backoffSleep (n + j) (u (n + j)))) := by
  intro M
  induction M with
  | zero =>
    intro n c body _ hev hc
    unfold make_request
    rw [show n + 0 = n from rfl] at hev
    rw [hev]
    simp [hc]
  | succ M ih =>
    intro n c body hfail hev hc
    have h0 : settlesB ev n = false := by simpa using hfail 0 (Nat.succ_pos M)
    have hrec : make_request ev u (M + 1) (n + 1) =
        some (body, (List.range M).map (fun j => backoffSleep (n + 1 + j) (u (n + 1 + j)))) := by
      apply ih (n + 1) c body
      · intro k hk
        have := hfail (k + 1) (by omega)
        simpa [Nat.add_assoc, Nat.add_comm 1 k] using this
      · have : n + 1 + M = n + (M + 1) := by omega
        rw [this]; exact hev
      · exact hc
    have hmaps : (List.range (M + 1)).map (fun j => backoffSleep (n + j) (u (n + j))) =
        backoffSleep n (u n) ::
          (List.range M).map (fun j => backoffSleep (n + 1 + j) (u (n + 1 + j))) := by
      rw [List.range_succ_eq_map, List.map_cons, List.map_map]
      refine congrArg₂ _ (by simp) ?_
      apply List.map_congr_left
      intro j _
      have : n + (j + 1) = n + 1 + j := by omega
      simp [Function.comp, this]
    unfold make_request
    unfold settlesB at h0
    cases hev2 : ev n with
    | transient =>
      simp [hrec, hmaps]
    | resp c2 body2 =>
      rw [hev2] at h0
      have hc2 : c2 = 429 := by
        by_contra hne
        simp [hne] at h0
      simp [hc2, hrec, hmaps]

/-- C9: each backoff sleep after attempt `n` (any `n`, in particular
0..6) is `min(n,5) * uniform(0.75, 1.25)` and so lies within
`[0.75*min(n,5), 1.25*min(n,5)]`; and there is no maximum retry count:
however many attempts fail with a timeout, connection error or HTTP 429,
the call keeps retrying and returns the first non-429 response. -/
theorem claim9_backoff_and_retry :
    (∀ (n : Nat) (u : ℚ), 3/4 ≤ u → u ≤ 5/4 →
      3/4 * ((min n 5 : ℕ) : ℚ) ≤ backoffSleep n u ∧
        backoffSleep n u ≤ 5/4 * ((min n 5 : ℕ) : ℚ)) ∧
    (∀ (ev : Nat → ReqEvent) (u : Nat → ℚ) (N : Nat) (c : Nat) (body : ApiResponse),
      (∀ k, k < N → settlesB ev k = false) →
      ev N = .resp c body → c ≠ 429 →
      make_request ev u (N + 1) 0 =
        some (body, (List.range N).map (fun k => backoffSleep k (u k)))) := by
  constructor
  · intro n u hl hu
    have hm : (0 : ℚ) ≤ ((min n 5 : ℕ) : ℚ) := Nat.cast_nonneg _
    constructor
    · calc 3/4 * ((min n 5 : ℕ) : ℚ) = ((min n 5 : ℕ) : ℚ) * (3/4) := by ring
        _ ≤ ((min n 5 : ℕ) : ℚ) * u := mul_le_mul_of_nonneg_left hl hm
        _ = backoffSleep n u := rfl
    · calc backoffSleep n u = ((min n 5 : ℕ) : ℚ) * u := rfl
        _ ≤ ((min n 5 : ℕ) : ℚ) * (5/4) := mul_le_mul_of_nonneg_left hu hm
        _ = 5/4 * ((min n 5 : ℕ) : ℚ) := by ring
  · intro ev u N c body hfail hev hc
    have := make_request_run ev u N 0 c body (by intro k hk; simpa using hfail k hk)
      (by simpa using hev) hc
    simpa using this

/-- C9 witness: attempt 6 sleeps in `[0.75*5, 1.25*5]` with jitter 1, and
a stream failing once then answering HTTP 200 is retried and returns the
response after one (zero-length, `min(0,5)=0`) backoff sleep. -/
theorem claim9_backoff_and_retry_witness :
    (3/4 * ((min 6 5 : ℕ) : ℚ) ≤ backoffSleep 6 1 ∧
      backoffSleep 6 1 ≤ 5/4 * ((min 6 5 : ℕ) : ℚ)) ∧
    make_request evW (fun _ => 1) 2 0 =
      some (bodyW, (List.range 1).map (fun k => backoffSleep k 1)) := by
  constructor
  · exact claim9_backoff_and_retry.1 6 1 (by norm_num) (by norm_num)
  · exact claim9_backoff_and_retry.2 evW (fun _ => 1) 1 200 bodyW
      (by intro k hk; have : k = 0 := by omega
          subst this; rfl)
      rfl (by decide)

/-- Helper for C4: the cursor chain restarted from the second page's
cursor is the original chain shifted by one. -/
theorem chainFrom_shift {α : Type} (server : Option String → Nat → PageResp α)
    (c0 : Option String) :
    ∀ k, chainFrom server ((server c0 100).cursor) k = chainFrom server c0 (k + 1) := by
  intro k
  induction k with
  | zero => rfl
  | succ k ih => unfold chainFrom; rw [ih]

/-- Helper for C4: on `N + 1` pages that are all `ok` and non-empty, with
`has_next_page` set on all but the last, the paginator yields exactly the
`N + 1` batches and sends exactly the server-provided cursor chain, with
`max_page_size = 100` on every request. -/
theorem get_collection_pages {α : Type} (server : Option String → Nat → PageResp α) :
    ∀ (N fuel : Nat) (c0 : Option String), N < fuel →
    (∀ k, k ≤ N → (server (chainFrom server c0 k) 100).status = "ok") →
    (∀ k, k ≤ N → (server (chainFrom server c0 k) 100).items ≠ []) →
    (∀ k, k < N → (server (chainFrom server c0 k) 100).has_next_page = true) →
    (server (chainFrom server c0 N) 100).has_next_page = false →
    get_collection server fuel c0 =
      some ((List.range (N + 1)).map (fun k => (server (chainFrom server c0 k) 100).items),
            (List.range (N + 1)).map (fun k => (chainFrom server c0 k, 100))) := by
  intro N
  induction N with
  | zero =>
    intro fuel c0 hfuel hok hne _ hlast
    obtain ⟨f, rfl⟩ : ∃ f, fuel = f + 1 := ⟨fuel - 1, by omega⟩
    unfold get_collection
    have h0 : (server c0 100).status = "ok" := hok 0 (le_refl 0)
    have h1 : (server c0 100).items ≠ [] := hne 0 (le_refl 0)
    rw [if_neg (by simp [h0])]
    rw [if_neg (by simpa [List.isEmpty_iff] using h1)]
    have h3 : (server c0 100).has_next_page = false := hlast
    rw [if_pos h3]
    rfl
  | succ N ih =>
    intro fuel c0 hfuel hok hne hnx hlast
    obtain ⟨f, rfl⟩ : ∃ f, fuel = f + 1 := ⟨fuel - 1, by omega⟩
    unfold get_collection
    have h0 : (server c0 100).status = "ok" := hok 0 (Nat.zero_le _)
    have h1 : (server c0 100).items ≠ [] := hne 0 (Nat.zero_le _)
    have h2 : (server c0 100).has_next_page = true := hnx 0 (Nat.succ_pos N)
    rw [if_neg (by simp [h0])]
    rw [if_neg (by simpa [List.isEmpty_iff] using h1)]
    rw [if_neg (by simp [h2])]
    have hrec := ih f ((server c0 100).cursor) (by omega)
      (by intro k hk
          rw [chainFrom_shift]
          exact hok (k + 1) (by omega))
      (by intro k hk
          rw [chainFrom_shift]
          exact hne (k + 1) (by omega))
      (by intro k hk
          rw [chainFrom_shift]
          exact hnx (k + 1) (by omega))
      (by rw [chainFrom_shift]; exact hlast)
    rw [hrec]
    have hb : (List.range (N + 1 + 1)).map
        (fun k => (server (chainFrom server c0 k) 100).items) =
        (server c0 100).items :: (List.range (N + 1)).map
          (fun k => (server (chainFrom server ((server c0 100).cursor) k) 100).items) := by
      rw [List.range_succ_eq_map, List.map_cons, List.map_map]
      refine congrArg₂ _ rfl ?_
      apply List.map_congr_left
      intro j _
      simp [Function.comp, chainFrom_shift]
    have hcs : (List.range (N + 1 + 1)).map (fun k => (chainFrom server c0 k, 100)) =
        (c0, 100) :: (List.range (N + 1)).map
          (fun k => (chainFrom server ((server c0 100).cursor) k, 100)) := by
      rw [List.range_succ_eq_map, List.map_cons, List.map_map]
      refine congrArg₂ _ rfl ?_
      apply List.map_congr_left
      intro j _
      simp [Function.comp, chainFrom_shift]
    rw [hb, hcs]

/-- Helper for C4: when page `K` of the chain comes back `ok` but with no
items (all earlier pages ok, non-empty and with a next page), the
paginator stops after yielding the first `K` batches, having sent `K + 1`
requests. -/
theorem get_collection_empty {α : Type} (server : Option String → Nat → PageResp α) :
    ∀ (K fuel : Nat) (c0 : Option String), K < fuel →
    (∀ k, k < K → (server (chainFrom server c0 k) 100).status = "ok") →
    (∀ k, k < K → (server (chainFrom server c0 k) 100).items ≠ []) →
    (∀ k, k < K → (server (chainFrom server c0 k) 100).has_next_page = true) →
    (server (chainFrom server c0 K) 100).status = "ok" →
    (server (chainFrom server c0 K) 100).items = [] →
    get_collection server fuel c0 =
      some ((List.range K).map (fun k => (server (chainFrom server c0 k) 100).items),
            (List.range (K + 1)).map (fun k => (chainFrom server c0 k, 100))) := by
  intro K
  induction K with
  | zero =>
    intro fuel c0 hfuel _ _ _ hok hempty
    obtain ⟨f, rfl⟩ : ∃ f, fuel = f + 1 := ⟨fuel - 1, by omega⟩
    unfold get_collection
    have h0 : (server c0 100).status = "ok" := hok
    have h1 : (server c0 100).items = [] := hempty
    rw [if_neg (by simp [h0])]
    rw [if_pos (by simpa [List.isEmpty_iff] using h1)]
    rfl
  | succ K ih =>
    intro fuel c0 hfuel hok hne hnx hokK hempty
    obtain ⟨f, rfl⟩ : ∃ f, fuel = f + 1 := ⟨fuel - 1, by omega⟩
    unfold get_collection
    have h0 : (server c0 100).status = "ok" := hok 0 (Nat.succ_pos K)
    have h1 : (server c0 100).items ≠ [] := hne 0 (Nat.succ_pos K)
    have h2 : (server c0 100).has_next_page = true := hnx 0 (Nat.succ_pos K)
    rw [if_neg (by simp [h0])]
    rw [if_neg (by simpa [List.isEmpty_iff] using h1)]
    rw [if_neg (by simp [h2])]
    have hrec := ih f ((server c0 100).cursor) (by omega)
      (by intro k hk; rw [chainFrom_shift]; exact hok (k + 1) (by omega))
      (by intro k hk; rw [chainFrom_shift]; exact hne (k + 1) (by omega))
      (by intro k hk; rw [chainFrom_shift]; exact hnx (k + 1) (by omega))
      (by rw [chainFrom_shift]; exact hokK)
      (by rw [chainFrom_shift]; exact hempty)
    rw [hrec]
    have hb : (List.range (K + 1)).map
        (fun k => (server (chainFrom server c0 k) 100).items) =
        (server c0 100).items :: (List.range K).map
          (fun k => (server (chainFrom server ((server c0 100).cursor) k) 100).items) := by
      rw [List.range_succ_eq_map, List.map_cons, List.map_map]
      refine congrArg₂ _ rfl ?_
      apply List.map_congr_left
      intro j _
      simp [Function.comp, chainFrom_shift]
    have hcs : (List.range (K + 1 + 1)).map (fun k => (chainFrom server c0 k, 100)) =
        (c0, 100) :: (List.range (K + 1)).map
          (fun k => (chainFrom server ((server c0 100).cursor) k, 100)) := by
      rw [List.range_succ_eq_map, List.map_cons, List.map_map]
      refine congrArg₂ _ rfl ?_
      apply List.map_congr_left
      intro j _
      simp [Function.comp, chainFrom_shift]
    rw [hb, hcs]

/-- C4: for a server whose cursor chain from the first (`null`-cursor)
request gives `N ≥ 1` `ok` pages, each with at least one item, with
`has_next_page` on every page but the `N`-th, the Paginator yields exactly
the `N` batches and stops; every request carries `max_page_size = 100`,
the first request the cursor `none`, and request `k+1` exactly the cursor
of the server's page-info of page `k`.  It also stops yielding as soon as
an `ok` page comes back with zero items. -/
theorem claim4_paginator :
    (∀ {α : Type} (server : Option String → Nat → PageResp α) (N fuel : Nat),
      1 ≤ N → N ≤ fuel →
      (∀ k, k < N → (server (chainFrom server none k) 100).status = "ok") →
      (∀ k, k < N → (server (chainFrom server none k) 100).items ≠ []) →
      (∀ k, k + 1 < N → (server (chainFrom server none k) 100).has_next_page = true) →
      (server (chainFrom server none (N - 1)) 100).has_next_page = false →
      get_collection server fuel none =
        some ((List.range N).map (fun k => (server (chainFrom server none k) 100).items),
              (List.range N).map (fun k => (chainFrom server none k, 100)))) ∧
    (∀ {α : Type} (server : Option String → Nat → PageResp α) (K fuel : Nat),
      K < fuel →
      (∀ k, k < K → (server (chainFrom server none k) 100).status = "ok") →
      (∀ k, k < K → (server (chainFrom server none k) 100).items ≠ []) →
      (∀ k, k < K → (server (chainFrom server none k) 100).has_next_page = true) →
      (server (chainFrom server none K) 100).status = "ok" →
      (server (chainFrom server none K) 100).items = [] →
      get_collection server fuel none =
        some ((List.range K).map (fun k => (server (chainFrom server none k) 100).items),
              (List.range (K + 1)).map (fun k => (chainFrom server none k, 100)))) := by
  constructor
  · intro α server N fuel h1 hfuel hok hne hnx hlast
    obtain ⟨M, rfl⟩ : ∃ M, N = M + 1 := ⟨N - 1, by omega⟩
    exact get_collection_pages server M fuel none (by omega)
      (fun k hk => hok k (by omega)) (fun k hk => hne k (by omega))
      (fun k hk => hnx k (by omega)) (by simpa using hlast)
  · intro α server K fuel hfuel hok hne hnx hokK hempty
    exact get_collection_empty server K fuel none hfuel hok hne hnx hokK hempty

/-- C4 witness: the two-page mock server yields exactly its two batches
with the expected request log. -/
theorem claim4_paginator_witness :
    get_collection serverW 2 none = some ([[1, 2], [3]], [(none, 100), (some "c1", 100)]) := by
  have h := claim4_paginator.1 serverW 2 2 (by norm_num) (le_refl 2)
    (by intro k hk; interval_cases k <;> rfl)
    (by intro k hk; interval_cases k <;> decide)
    (by intro k hk
        have : k = 0 := by omega
        subst this; rfl)
    (by rfl)
  rw [h]
  rfl

/-- Helper for C8: `unique_everseen` only keeps elements of its input. -/
theorem dedupByKey_mem {κ ρ : Type} [DecidableEq κ] (key : ρ → κ) :
    ∀ (l : List ρ) (seen : Finset κ) (r : ρ), r ∈ dedupByKey key l seen → r ∈ l := by
  intro l
  induction l with
  | nil => intro seen r h; simp [dedupByKey] at h
  | cons a rest ih =>
    intro seen r h
    unfold dedupByKey at h
    by_cases ha : key a ∈ seen
    · rw [if_pos ha] at h
      exact List.mem_cons_of_mem a (ih seen r h)
    · rw [if_neg ha] at h
      rcases List.mem_cons.mp h with h | h
      · subst h; exact List.mem_cons_self r rest
      · exact List.mem_cons_of_mem a (ih _ r h)

/-- Helper for C8: `unique_everseen` never emits an already-seen key. -/
theorem dedupByKey_not_seen {κ ρ : Type} [DecidableEq κ] (key : ρ → κ) :
    ∀ (l : List ρ) (seen : Finset κ) (r : ρ), r ∈ dedupByKey key l seen → key r ∉ seen := by
  intro l
  induction l with
  | nil => intro seen r h; simp [dedupByKey] at h
  | cons a rest ih =>
    intro seen r h
    unfold dedupByKey at h
    by_cases ha : key a ∈ seen
    · rw [if_pos ha] at h
      exact ih seen r h
    · rw [if_neg ha] at h
      rcases List.mem_cons.mp h with h | h
      · subst h; exact ha
      · intro hmem
        exact ih _ r h (Finset.mem_insert_of_mem hmem)

/-- Helper for C8: the keys of a `unique_everseen` output are pairwise
distinct. -/
theorem dedupByKey_nodup {κ ρ : Type} [DecidableEq κ] (key : ρ → κ) :
    ∀ (l : List ρ) (seen : Finset κ), ((dedupByKey key l seen).map key).Nodup := by
  intro l
  induction l with
  | nil => intro seen; simp [dedupByKey]
  | cons a rest ih =>
    intro seen
    unfold dedupByKey
    by_cases ha : key a ∈ seen
    · rw [if_pos ha]; exact ih seen
    · rw [if_neg ha]
      rw [List.map_cons, List.nodup_cons]
      refine ⟨?_, ih _⟩
      intro hmem
      rcases List.mem_map.mp hmem with ⟨r, hr, hkey⟩
      exact dedupByKey_not_seen key rest _ r hr (hkey ▸ Finset.mem_insert_self _ _)

/-- Helper for C8: one save call preserves the sink invariant. -/
theorem saveTable_inv {κ ρ : Type} [DecidableEq κ] (key : ρ → κ)
    (s : Sink κ ρ) (items : List ρ) (h : SinkInv key s) :
    SinkInv key (saveTable key s items) := by
  obtain ⟨hnd, hmem⟩ := h
  unfold saveTable save_items_to_csv SinkInv
  by_cases hu : (dedupByKey key (items.filter (fun r => key r ∉ s.saved)) ∅).isEmpty
  · simp only [hu, if_pos]
    exact ⟨hnd, fun r hr => Finset.mem_union_left _ (hmem r hr)⟩
  · simp only [hu]
    rw [if_neg (by simp [hu])]
    have hsub : ∀ r, r ∈ dedupByKey key (items.filter (fun r => key r ∉ s.saved)) ∅ →
        r ∈ items ∧ key r ∉ s.saved := by
      intro r hr
      have := dedupByKey_mem key _ _ r hr
      rw [List.mem_filter] at this
      exact ⟨this.1, by simpa using this.2⟩
    have hkeyin : ∀ r, r ∈ dedupByKey key (items.filter (fun r => key r ∉ s.saved)) ∅ →
        key r ∈ s.saved ∪ (items.map key).toFinset := by
      intro r hr
      exact Finset.mem_union_right _
        (List.mem_toFinset.mpr (List.mem_map_of_mem key (hsub r hr).1))
    cases hfile : s.file with
    | none =>
      simp only [hfile, Option.getD_none] at hnd hmem ⊢
      refine ⟨dedupByKey_nodup key _ _, ?_⟩
      intro r hr
      exact hkeyin r hr
    | some rows =>
      simp only [hfile, Option.getD_some] at hnd hmem ⊢
      constructor
      · rw [List.map_append]
        rw [List.nodup_append]
        refine ⟨hnd, dedupByKey_nodup key _ _, ?_⟩
        intro a ha ha'
        rcases List.mem_map.mp ha with ⟨r, hr, rfl⟩
        rcases List.mem_map.mp ha' with ⟨r', hr', hkk⟩
        exact (hsub r' hr').2 (hkk ▸ hmem r hr)
      · intro r hr
        rcases List.mem_append.mp hr with hr | hr
        · exact Finset.mem_union_left _ (hmem r hr)
        · exact hkeyin r hr

/-- Helper for C8: re-initializing from an existing output file whose keys
are distinct establishes the sink invariant. -/
theorem save_table_init_inv {κ ρ : Type} [DecidableEq κ] (key : ρ → κ)
    (file : Option (List ρ)) (h : ((file.getD []).map key).Nodup) :
    SinkInv key (save_table_init key file) := by
  refine ⟨h, ?_⟩
  intro r hr
  exact List.mem_toFinset.mpr (List.mem_map_of_mem key hr)

/-- Helper for C8: a whole run of save calls preserves the invariant. -/
theorem runSaves_inv {κ ρ : Type} [DecidableEq κ] (key : ρ → κ) :
    ∀ (batches : List (List ρ)) (s : Sink κ ρ), SinkInv key s →
    SinkInv key (runSaves key s batches) := by
  intro batches
  induction batches with
  | nil => intro s h; exact h
  | cons b rest ih =>
    intro s h
    exact ih (saveTable key s b) (saveTable_inv key s b h)

/-- C8: persistence is idempotent per natural key.  Starting from any
existing output whose keys are distinct, re-initializing the dedup state
from it (`save.init`) and performing any sequence of save calls keeps the
file free of duplicate keys — and the same holds again for a later run
re-initialized from the first run's output, so saving a record a second
time within a run or across runs never appends a second row for its
key. -/
theorem claim8_idempotent_persistence {κ ρ : Type} [DecidableEq κ] (key : ρ → κ)
    (file : Option (List ρ)) (b1 b2 : List (List ρ))
    (h : ((file.getD []).map key).Nodup) :
    SinkInv key (runSaves key (save_table_init key file) b1) ∧
    SinkInv key (runSaves key (save_table_init key
      (runSaves key (save_table_init key file) b1).file) b2) := by
  have h1 := runSaves_inv key b1 (save_table_init key file) (save_table_init_inv key file h)
  exact ⟨h1, runSaves_inv key b2 _ (save_table_init_inv key _ h1.1)⟩

/-- C8 witness: a run over an existing one-row file, saving the same key
in two batches, then a second run re-initialized from its output. -/
theorem claim8_idempotent_persistence_witness :
    SinkInv Post.id (runSaves Post.id (save_table_init Post.id (some [postC1]))
      [[postC1], [postC1, postW]]) ∧
    SinkInv Post.id (runSaves Post.id (save_table_init Post.id
      (runSaves Post.id (save_table_init Post.id (some [postC1]))
        [[postC1], [postC1, postW]]).file) [[postW]]) :=
  claim8_idempotent_persistence Post.id (some [postC1]) [[postC1], [postC1, postW]]
    [[postW]] (by decide)

/-- Helper for C5: refilling moves items between the stream and the
in-flight list without losing any. -/
theorem refill_len (maxQ : Nat) : ∀ (s i : List SchedTask),
    (refill maxQ s i).1.length + (refill maxQ s i).2.length = s.length + i.length := by
  intro s
  induction s with
  | nil => intro i; simp [refill]
  | cons t rest ih =>
    intro i
    unfold refill
    by_cases hlt : i.length < maxQ
    · rw [if_pos hlt]
      have := ih (i ++ [t])
      simp at this ⊢
      omega
    · rw [if_neg hlt]

/-- Helper for C5: refilling never exceeds `MAX_QUEUE_SIZE`. -/
theorem refill_le (maxQ : Nat) : ∀ (s i : List SchedTask),
    i.length ≤ maxQ → (refill maxQ s i).2.length ≤ maxQ := by
  intro s
  induction s with
  | nil => intro i h; simpa [refill] using h
  | cons t rest ih =>
    intro i h
    unfold refill
    by_cases hlt : i.length < maxQ
    · rw [if_pos hlt]
      exact ih (i ++ [t]) (by simp; omega)
    · rw [if_neg hlt]
      exact h

/-- Helper for C5: the part of the stream not yet started is a suffix of
the original stream. -/
theorem refill_suffix (maxQ : Nat) : ∀ (s i : List SchedTask),
    (refill maxQ s i).1 <:+ s := by
  intro s
  induction s with
  | nil => intro i; simp [refill]
  | cons t rest ih =>
    intro i
    unfold refill
    by_cases hlt : i.length < maxQ
    · rw [if_pos hlt]
      exact (ih (i ++ [t])).trans (List.suffix_cons t rest)
    · rw [if_neg hlt]

/-- Helper for C5: every in-flight task after a refill came from the
previous in-flight set or from the stream. -/
theorem refill_mem (maxQ : Nat) : ∀ (s i : List SchedTask) (t : SchedTask),
    t ∈ (refill maxQ s i).2 → t ∈ i ∨ t ∈ s := by
  intro s
  induction s with
  | nil => intro i t h; exact Or.inl (by simpa [refill] using h)
  | cons a rest ih =>
    intro i t h
    unfold refill at h
    by_cases hlt : i.length < maxQ
    · rw [if_pos hlt] at h
      rcases ih (i ++ [a]) t h with hh | hh
      · rcases List.mem_append.mp hh with hh | hh
        · exact Or.inl hh
        · simp at hh
          subst hh
          exact Or.inr (List.mem_cons_self _ _)
      · exact Or.inr (List.mem_cons_of_mem a hh)
    · rw [if_neg hlt] at h
      exact Or.inl h

/-- Helper for C5: refilling only moves invocations between the stream
and the in-flight list — their multiset union is preserved. -/
theorem refill_perm (maxQ : Nat) : ∀ (s i : List SchedTask),
    List.Perm ((refill maxQ s i).1 ++ (refill maxQ s i).2) (s ++ i) := by
  intro s
  induction s with
  | nil => intro i; simp [refill]
  | cons t rest ih =>
    intro i
    unfold refill
    by_cases hlt : i.length < maxQ
    · rw [if_pos hlt]
      refine (ih (i ++ [t])).trans ?_
      rw [← List.append_assoc]
      exact List.perm_append_singleton t (rest ++ i)
    · rw [if_neg hlt]

/-- Helper for C5: rebracketing of the run accounting — finished-before
plus the failing round's completions plus the cancelled in-flight rest
plus the unstarted stream rest is a permutation of everything handed to
the loop. -/
theorem sched_accounting (fin done pend stream1 infl1 infl stream : List SchedTask)
    (hdp : List.Perm (done ++ pend) infl1)
    (hrp : List.Perm (stream1 ++ infl1) (stream ++ infl)) :
    List.Perm (((fin ++ done) ++ pend) ++ stream1) ((fin ++ infl) ++ stream) := by
  have e1 : ((fin ++ done) ++ pend) ++ stream1 = fin ++ ((done ++ pend) ++ stream1) := by
    simp [List.append_assoc]
  have e2 : (fin ++ infl) ++ stream = fin ++ (infl ++ stream) := by
    simp [List.append_assoc]
  rw [e1, e2]
  refine List.Perm.append_left fin ?_
  refine (hdp.append_right stream1).trans ?_
  exact List.perm_append_comm.trans (hrp.trans List.perm_append_comm)

/-- Helper for C5: the specification of the scheduler loop.  On a clean
finish the completed list is a permutation of everything handed to the
loop; on a failure every invocation handed to the loop is accounted for:
completed in an earlier round, completed in the failing round (the
re-raised failing task among them), cancelled, or never started — and the
cancelled list is disjoint from the failing round's completions. -/
theorem scheduleLoop_spec (maxQ : Nat) : ∀ (rounds : List (List Nat))
    (stream infl fin : List SchedTask) (mi : Nat),
    infl.length ≤ maxQ → mi ≤ maxQ →
    ∀ res, scheduleLoop maxQ rounds stream infl fin mi = some res →
    (∀ flist m, res = .ok flist m →
      List.Perm flist (fin ++ infl ++ stream) ∧ m ≤ maxQ) ∧
    (∀ t d c u fb m, res = .failed t d c u fb m →
      t.fails = true ∧ t ∈ d ∧
      List.Perm (fb ++ d ++ c ++ u) (fin ++ infl ++ stream) ∧
      (∀ x ∈ c, x ∉ d) ∧ m ≤ maxQ ∧ u <:+ stream) := by
  intro rounds
  induction rounds with
  | nil =>
    intro stream infl fin mi hlen hmi res hres
    unfold scheduleLoop at hres
    by_cases hdone : (refill maxQ stream infl).2.isEmpty && (refill maxQ stream infl).1.isEmpty
    · rw [if_pos hdone] at hres
      have h1 : (refill maxQ stream infl).2.length = 0 :=
        List.isEmpty_iff_length_eq_zero.mp (by exact (Bool.and_eq_true _ _ ▸ hdone).1)
      have h2 : (refill maxQ stream infl).1.length = 0 :=
        List.isEmpty_iff_length_eq_zero.mp (by exact (Bool.and_eq_true _ _ ▸ hdone).2)
      have hlen0 : infl.length + stream.length = 0 := by
        have := refill_len maxQ stream infl
        omega
      have hinfl : infl = [] := List.length_eq_zero.mp (by omega)
      have hstr : stream = [] := List.length_eq_zero.mp (by omega)
      rcases Option.some.inj hres with rfl
      constructor
      · intro flist m hfm
        rcases SchedResult.ok.inj hfm with ⟨rfl, rfl⟩
        subst hinfl
        subst hstr
        refine ⟨by simp, ?_⟩
        rw [h1]
        simpa using hmi
      · intro t d c u fb m hfm
        simp at hfm
    · rw [if_neg hdone] at hres
      exact absurd hres (by simp)
  | cons r rounds1 ih =>
    intro stream infl fin mi hlen hmi res hres
    unfold scheduleLoop at hres
    by_cases hdone : (refill maxQ stream infl).2.isEmpty && (refill maxQ stream infl).1.isEmpty
    · rw [if_pos hdone] at hres
      have h1 : (refill maxQ stream infl).2.length = 0 :=
        List.isEmpty_iff_length_eq_zero.mp (by exact (Bool.and_eq_true _ _ ▸ hdone).1)
      have h2 : (refill maxQ stream infl).1.length = 0 :=
        List.isEmpty_iff_length_eq_zero.mp (by exact (Bool.and_eq_true _ _ ▸ hdone).2)
      have hlen0 : infl.length + stream.length = 0 := by
        have := refill_len maxQ stream infl
        omega
      have hinfl : infl = [] := List.length_eq_zero.mp (by omega)
      have hstr : stream = [] := List.length_eq_zero.mp (by omega)
      rcases Option.some.inj hres with rfl
      constructor
      · intro flist m hfm
        rcases SchedResult.ok.inj hfm with ⟨rfl, rfl⟩
        subst hinfl
        subst hstr
        refine ⟨by simp, ?_⟩
        rw [h1]
        simpa using hmi
      · intro t d c u fb m hfm
        simp at hfm
    · rw [if_neg hdone] at hres
      have hinfl1 : (refill maxQ stream infl).2.length ≤ maxQ := refill_le maxQ stream infl hlen
      have hmi1 : max mi (refill maxQ stream infl).2.length ≤ maxQ := by omega
      have hperm := sched_accounting fin
        ((refill maxQ stream infl).2.filter (fun t => r.contains t.id))
        ((refill maxQ stream infl).2.filter (fun t => !(r.contains t.id)))
        (refill maxQ stream infl).1 (refill maxQ stream infl).2 infl stream
        (List.filter_append_perm _ _) (refill_perm maxQ stream infl)
      cases hfind : ((refill maxQ stream infl).2.filter
          (fun t => r.contains t.id)).find? (fun t => t.fails) with
      | some t =>
        rw [hfind] at hres
        simp only at hres
        rcases Option.some.inj hres with rfl
        constructor
        · intro flist m hfm; simp at hfm
        · intro t' d c u fb m hfm
          rcases SchedResult.failed.inj hfm with ⟨rfl, rfl, rfl, rfl, rfl, rfl⟩
          have htd := List.mem_of_find?_eq_some hfind
          have htf := List.find?_some hfind
          refine ⟨htf, htd, hperm, ?_, hmi1, refill_suffix maxQ stream infl⟩
          intro x hxc hxd
          have hx1 := (List.mem_filter.mp hxc).2
          have hx2 := (List.mem_filter.mp hxd).2
          simp at hx1 hx2
          exact hx1 hx2
      | none =>
        rw [hfind] at hres
        simp only at hres
        have hpend : ((refill maxQ stream infl).2.filter
            (fun t => !(r.contains t.id))).length ≤ maxQ :=
          le_trans (List.length_filter_le _ _) hinfl1
        have hspec := ih (refill maxQ stream infl).1 _ _ _ hpend hmi1 res hres
        constructor
        · intro flist m hfm
          rcases hspec.1 flist m hfm with ⟨hp, hm⟩
          exact ⟨hp.trans hperm, hm⟩
        · intro t d c u fb m hfm
          rcases hspec.2 t d c u fb m hfm with ⟨htf, htd, hacc, hdisj, hm, hsuf⟩
          exact ⟨htf, htd, hacc.trans hperm, hdisj, hm,
            hsuf.trans (refill_suffix maxQ stream infl)⟩

/-- C5: for every finite stream of top-level invocations and completion
oracle, when `schedule` terminates without an exception it has run every
invocation in the stream to completion (the completed list is a
permutation of the stream) while never holding more than `MAX_QUEUE_SIZE`
invocations in flight; and when a completed invocation raised, `schedule`
re-raises a genuinely failing invocation of the stream and the full
accounting holds: the invocations completed in earlier rounds, the
failing round's completions (the failing one among them), the cancelled
in-flight invocations and the unstarted rest together are a permutation
of the stream — so every in-flight invocation other than the completed
ones is cancelled (the cancelled list is disjoint from the completed
round) and no new invocation is started (the unstarted rest is an
untouched suffix of the stream) — still within the in-flight bound. -/
theorem claim5_scheduler (maxQ : Nat) (rounds : List (List Nat))
    (stream : List SchedTask) (res : SchedResult)
    (hres : schedule maxQ rounds stream = some res) :
    (∀ flist m, res = .ok flist m →
      List.Perm flist stream ∧ flist.length = stream.length ∧ m ≤ maxQ) ∧
    (∀ t d c u fb m, res = .failed t d c u fb m →
      t.fails = true ∧ t ∈ d ∧ t ∈ stream ∧
      List.Perm (fb ++ d ++ c ++ u) stream ∧
      (∀ x ∈ c, x ∉ d) ∧ u <:+ stream ∧ m ≤ maxQ) := by
  have h := scheduleLoop_spec maxQ rounds stream [] [] 0 (by simp) (Nat.zero_le _) res hres
  constructor
  · intro flist m hfm
    rcases h.1 flist m hfm with ⟨hp, hm⟩
    have hp2 : List.Perm flist stream := by simpa using hp
    exact ⟨hp2, hp2.length_eq, hm⟩
  · intro t d c u fb m hfm
    rcases h.2 t d c u fb m hfm with ⟨htf, htd, hacc, hdisj, hm, hsuf⟩
    have hacc2 : List.Perm (fb ++ d ++ c ++ u) stream := by simpa using hacc
    have hts : t ∈ stream := by
      have h1 : t ∈ fb ++ d := List.mem_append_right fb htd
      have h2 : t ∈ (fb ++ d) ++ c := List.mem_append_left c h1
      have h3 : t ∈ ((fb ++ d) ++ c) ++ u := List.mem_append_left u h2
      exact hacc2.subset h3
    exact ⟨htf, htd, hts, hacc2, hdisj, hsuf, hm⟩

/-- C5 witness: with `MAX_QUEUE_SIZE = 2` and three invocations of which
the second raises, the run fails on that invocation; the failing round
completed exactly it, invocation 1 is cancelled, invocation 3 was never
started, the four groups account for the whole stream, and at most 2
invocations were ever in flight. -/
theorem claim5_scheduler_witness :
    (SchedTask.mk 2 true).fails = true ∧
    SchedTask.mk 2 true ∈ [SchedTask.mk 2 true] ∧
    SchedTask.mk 2 true ∈
      [SchedTask.mk 1 false, SchedTask.mk 2 true, SchedTask.mk 3 false] ∧
    List.Perm
      (([] : List SchedTask) ++ [SchedTask.mk 2 true] ++ [SchedTask.mk 1 false] ++
        [SchedTask.mk 3 false])
      [SchedTask.mk 1 false, SchedTask.mk 2 true, SchedTask.mk 3 false] ∧
    (∀ x ∈ [SchedTask.mk 1 false], x ∉ [SchedTask.mk 2 true]) ∧
    [SchedTask.mk 3 false] <:+
      [SchedTask.mk 1 false, SchedTask.mk 2 true, SchedTask.mk 3 false] ∧
    2 ≤ 2 := by
  have heq : schedule 2 [[2]] [⟨1, false⟩, ⟨2, true⟩, ⟨3, false⟩] =
      some (.failed ⟨2, true⟩ [⟨2, true⟩] [⟨1, false⟩] [⟨3, false⟩] [] 2) := by decide
  exact (claim5_scheduler 2 [[2]] _ _ heq).2 _ _ _ _ _ _ rfl
/-- Helper for C6: `digitChar` of a decimal digit is never `'/'`. -/
theorem digitChar_fin_ne_slash : ∀ a : Fin 10, Nat.digitChar a.val ≠ '/' := by decide

/-- Helper for C6: `digitChar` is injective on decimal digits. -/
theorem digitChar_fin_inj : ∀ a b : Fin 10,
    Nat.digitChar a.val = Nat.digitChar b.val → a = b := by decide

theorem digitChar_mod_ne_slash (n : Nat) : Nat.digitChar (n % 10) ≠ '/' :=
  digitChar_fin_ne_slash ⟨n % 10, by omega⟩

theorem digitChar_mod_inj {a b : Nat}
    (h : Nat.digitChar (a % 10) = Nat.digitChar (b % 10)) : a % 10 = b % 10 := by
  have := digitChar_fin_inj ⟨a % 10, by omega⟩ ⟨b % 10, by omega⟩ h
  exact congrArg Fin.val this

/-- Helper for C6: the two-digit field determines its value below 100. -/
theorem pad2_inj {a b : Nat} (ha : a ≤ 99) (hb : b ≤ 99) (h : pad2 a = pad2 b) :
    a = b := by
  unfold pad2 at h
  simp only [List.cons.injEq, and_true] at h
  have h1 := digitChar_mod_inj h.1
  have h2 := digitChar_mod_inj h.2
  omega

/-- Helper for C6: the four-digit field determines its value below 10000. -/
theorem pad4_inj {a b : Nat} (ha : a ≤ 9999) (hb : b ≤ 9999) (h : pad4 a = pad4 b) :
    a = b := by
  unfold pad4 at h
  simp only [List.cons.injEq, and_true] at h
  have h1 := digitChar_mod_inj h.1
  have h2 := digitChar_mod_inj h.2.1
  have h3 := digitChar_mod_inj h.2.2.1
  have h4 := digitChar_mod_inj h.2.2.2
  omega

theorem pad2_ne_slash (n : Nat) : '/' ∉ pad2 n := by
  unfold pad2
  intro h
  rcases List.mem_cons.mp h with h | h
  · exact digitChar_mod_ne_slash _ h.symm
  · rcases List.mem_cons.mp h with h | h
    · exact digitChar_mod_ne_slash _ h.symm
    · simp at h

theorem pad4_ne_slash (n : Nat) : '/' ∉ pad4 n := by
  unfold pad4
  intro h
  rcases List.mem_cons.mp h with h | h
  · exact digitChar_mod_ne_slash _ h.symm
  · rcases List.mem_cons.mp h with h | h
    · exact digitChar_mod_ne_slash _ h.symm
    · rcases List.mem_cons.mp h with h | h
      · exact digitChar_mod_ne_slash _ h.symm
      · rcases List.mem_cons.mp h with h | h
        · exact digitChar_mod_ne_slash _ h.symm
        · simp at h

/-- Helper for C6: an ISO-format timestamp never contains `'/'`. -/
theorem isoformatChars_ne_slash (d : PyDatetime) : '/' ∉ isoformatChars d := by
  intro h
  unfold isoformatChars at h
  rcases List.mem_append.mp h with h | h
  · rcases List.mem_append.mp h with h | h
    · rcases List.mem_append.mp h with h | h
      · rcases List.mem_append.mp h with h | h
        · rcases List.mem_append.mp h with h | h
          · exact pad4_ne_slash _ h
          · rcases List.mem_cons.mp h with h | h
            · exact absurd h (by decide)
            · exact pad2_ne_slash _ h
        · rcases List.mem_cons.mp h with h | h
          · exact absurd h (by decide)
          · exact pad2_ne_slash _ h
      · rcases List.mem_cons.mp h with h | h
        · exact absurd h (by decide)
        · exact pad2_ne_slash _ h
    · rcases List.mem_cons.mp h with h | h
      · exact absurd h (by decide)
      · exact pad2_ne_slash _ h
  · rcases List.mem_cons.mp h with h | h
    · exact absurd h (by decide)
    · exact pad2_ne_slash _ h

/-- Helper for C6: ISO formatting is injective on bounded fields. -/
theorem isoformatChars_inj {d1 d2 : PyDatetime} (h1 : ValidDt d1) (h2 : ValidDt d2)
    (h : isoformatChars d1 = isoformatChars d2) : d1 = d2 := by
  unfold isoformatChars at h
  obtain ⟨h, htl⟩ := List.append_inj h rfl
  obtain ⟨-, hs⟩ := List.cons.inj htl
  obtain ⟨h, htl2⟩ := List.append_inj h rfl
  obtain ⟨-, hmi⟩ := List.cons.inj htl2
  obtain ⟨h, htl3⟩ := List.append_inj h rfl
  obtain ⟨-, hh⟩ := List.cons.inj htl3
  obtain ⟨h, htl4⟩ := List.append_inj h rfl
  obtain ⟨-, hd⟩ := List.cons.inj htl4
  obtain ⟨hy, htl5⟩ := List.append_inj h rfl
  obtain ⟨-, hmo⟩ := List.cons.inj htl5
  obtain ⟨hy1, hmo1, hd1, hh1, hmi1, hs1⟩ := h1
  obtain ⟨hy2, hmo2, hd2, hh2, hmi2, hs2⟩ := h2
  cases d1
  cases d2
  simp only [PyDatetime.mk.injEq]
  simp only at hy1 hmo1 hd1 hh1 hmi1 hs1 hy2 hmo2 hd2 hh2 hmi2 hs2
  exact ⟨pad4_inj hy1 hy2 hy, pad2_inj hmo1 hmo2 hmo, pad2_inj hd1 hd2 hd,
    pad2_inj hh1 hh2 hh, pad2_inj hmi1 hmi2 hmi, pad2_inj hs1 hs2 hs⟩

theorem optIsoformat_ne_slash (o : Option PyDatetime) : '/' ∉ (optIsoformat o).data := by
  cases o with
  | none => simp [optIsoformat]
  | some d => exact isoformatChars_ne_slash d

/-- Helper for C6: the optional-date rendering is injective on valid
dates (a rendered date, being 19 characters, is never the empty string of
an absent one). -/
theorem optIsoformat_inj {o1 o2 : Option PyDatetime}
    (h1 : ValidOptDt o1) (h2 : ValidOptDt o2)
    (h : optIsoformat o1 = optIsoformat o2) : o1 = o2 := by
  cases o1 with
  | none =>
    cases o2 with
    | none => rfl
    | some d2 =>
      exfalso
      have := congrArg (fun s : String => s.data.length) h
      simp [optIsoformat, isoformat, isoformatChars, pad4, pad2] at this
  | some d1 =>
    cases o2 with
    | none =>
      exfalso
      have := congrArg (fun s : String => s.data.length) h
      simp [optIsoformat, isoformat, isoformatChars, pad4, pad2] at this
    | some d2 =>
      have hdata : isoformatChars d1 = isoformatChars d2 := by
        have := congrArg String.data h
        simpa [optIsoformat, isoformat] using this
      exact congrArg some (isoformatChars_inj h1 h2 hdata)

theorem searchType_toStr_ne_slash : ∀ t : SearchType, '/' ∉ t.toStr.data := by
  intro t
  cases t <;> decide

theorem searchType_toStr_inj : ∀ t1 t2 : SearchType, t1.toStr = t2.toStr → t1 = t2 := by
  intro t1 t2 h
  cases t1 <;> cases t2 <;> first | rfl | exact absurd h (by decide)

/-- Helper for C6: cancelling the last `'/'`-separated segment — when `a`
and `b` are slash-free, `x ++ '/' :: a = y ++ '/' :: b` forces `x = y` and
`a = b`. -/
theorem seg_cancel : ∀ (x y a b : List Char), '/' ∉ a → '/' ∉ b →
    x ++ '/' :: a = y ++ '/' :: b → x = y ∧ a = b := by
  intro x
  induction x with
  | nil =>
    intro y a b ha hb h
    cases y with
    | nil =>
      simp only [List.nil_append, List.cons.injEq, true_and] at h
      exact ⟨rfl, h⟩
    | cons c ys =>
      simp only [List.nil_append, List.cons_append, List.cons.injEq] at h
      exfalso
      apply ha
      rw [h.2]
      simp
  | cons c xs ih =>
    intro y a b ha hb h
    cases y with
    | nil =>
      simp only [List.nil_append, List.cons_append, List.cons.injEq] at h
      exfalso
      apply hb
      rw [← h.2]
      simp
    | cons d ys =>
      simp only [List.cons_append, List.cons.injEq] at h
      obtain ⟨hxy, hab⟩ := ih ys a b ha hb h.2
      exact ⟨by rw [h.1, hxy], hab⟩

/-- C6: the composite search item id
`'/'.join((query, from_date_iso, to_date_iso, search_type))` is injective:
two tuples of (normalized query text, optional from-date, optional
to-date, search variant) with the same id are equal componentwise — the
three trailing fields never contain `'/'`, so the id parses back
unambiguously, whatever the query text contains. -/
theorem claim6_search_id_injective :
    ∀ (q1 q2 : String) (f1 f2 t1 t2 : Option PyDatetime) (y1 y2 : SearchType),
    ValidOptDt f1 → ValidOptDt f2 → ValidOptDt t1 → ValidOptDt t2 →
    searchItemId q1 f1 t1 y1 = searchItemId q2 f2 t2 y2 →
    q1 = q2 ∧ f1 = f2 ∧ t1 = t2 ∧ y1 = y2 := by
  intro q1 q2 f1 f2 t1 t2 y1 y2 hf1 hf2 ht1 ht2 h
  have hdata := congrArg String.data h
  unfold searchItemId at hdata
  have hkey : ((q1.data ++ ('/' :: (optIsoformat f1).data)) ++
        ('/' :: (optIsoformat t1).data)) ++ ('/' :: y1.toStr.data) =
      ((q2.data ++ ('/' :: (optIsoformat f2).data)) ++
        ('/' :: (optIsoformat t2).data)) ++ ('/' :: y2.toStr.data) := by
    simpa [String.data_append, List.append_assoc] using hdata
  obtain ⟨h12, hS⟩ := seg_cancel _ _ _ _ (searchType_toStr_ne_slash y1)
    (searchType_toStr_ne_slash y2) hkey
  obtain ⟨h13, hT⟩ := seg_cancel _ _ _ _ (optIsoformat_ne_slash t1)
    (optIsoformat_ne_slash t2) h12
  obtain ⟨hQ, hF⟩ := seg_cancel _ _ _ _ (optIsoformat_ne_slash f1)
    (optIsoformat_ne_slash f2) h13
  refine ⟨String.ext hQ, ?_, ?_, ?_⟩
  · exact optIsoformat_inj hf1 hf2 (String.ext hF)
  · exact optIsoformat_inj ht1 ht2 (String.ext hT)
  · exact searchType_toStr_inj y1 y2 (String.ext hS)

/-- C6 witness: the theorem applied at a concrete pair of tuples sharing
an id. -/
theorem claim6_search_id_injective_witness :
    ("google" : String) = "google" ∧ (some dtW : Option PyDatetime) = some dtW ∧
    (none : Option PyDatetime) = none ∧ SearchType.top = SearchType.top :=
  claim6_search_id_injective "google" "google" (some dtW) (some dtW) none none .top .top
    (by unfold ValidOptDt dtW ValidDt; decide) (by unfold ValidOptDt dtW ValidDt; decide)
    trivial trivial rfl

/-! Helpers for C3: which task-cache entries each operation can touch. -/

theorem setTask_tasks (st : St) (k v x : String) :
    (setTask st k v).tasks x = if x = k then some v else st.tasks x := rfl

/-- The polling loop only logs calls; it never writes the task cache. -/
theorem pollUpdate_tasks (tag : CallTag) : ∀ (l : List String) (st st' : St),
    pollUpdate tag l st = some st' → st'.tasks = st.tasks := by
  intro l
  induction l with
  | nil => intro st st' h; cases h
  | cons s rest ih =>
    intro st st' h
    unfold pollUpdate at h
    by_cases hstop : stopPolling s = true
    · rw [if_pos hstop] at h
      rcases Option.some.inj h with rfl
      rfl
    · rw [if_neg hstop] at h
      exact ih (logCall st tag) st' h

/-- The update phase writes only its own key in the task cache. -/
theorem updatePhase_tasks (api : Api) (key : String) (st st' : St)
    (h : updatePhase api key st = some st') :
    ∀ k, k ≠ key → st'.tasks k = st.tasks k := by
  unfold updatePhase at h
  by_cases hnone : st.tasks key = none
  · rw [if_pos hnone] at h
    by_cases hacc : api.updateAccepted key = true
    · rw [if_pos hacc] at h
      simp only at h
      cases hpoll : pollUpdate (.updatePoll key) (api.updateStatuses key)
          (setTask (logCall st (.updateRequest key)) key "created") with
      | none => rw [hpoll] at h; cases h
      | some st3 =>
        rw [hpoll] at h
        rcases Option.some.inj h with rfl
        intro k hk
        have ht3 := pollUpdate_tasks _ _ _ _ hpoll
        show (setTask st3 key "collecting").tasks k = st.tasks k
        rw [setTask_tasks, if_neg hk]
        calc st3.tasks k
            = (setTask (logCall st (.updateRequest key)) key "created").tasks k :=
              congrFun ht3 k
          _ = st.tasks k := by
              rw [setTask_tasks, if_neg hk]
              rfl
    · rw [if_neg hacc] at h
      cases h
  · rw [if_neg hnone] at h
    simp only at h
    cases hpoll : pollUpdate (.updatePoll key) (api.updateStatuses key) st with
    | none => rw [hpoll] at h; cases h
    | some st3 =>
      rw [hpoll] at h
      rcases Option.some.inj h with rfl
      intro k hk
      have ht3 := pollUpdate_tasks _ _ _ _ hpoll
      show (setTask st3 key "collecting").tasks k = st.tasks k
      rw [setTask_tasks, if_neg hk]
      exact congrFun ht3 k

/-- The preservation property of C3: an operation never un-finishes any
task-cache entry. -/
def PreservesFin (g : St → Option St) : Prop :=
  ∀ st st' k, g st = some st' → st.tasks k = some "finished" →
    st'.tasks k = some "finished"

/-- The update phase preserves finished entries (its own key is not
finished when it runs, by the resumability short-circuit). -/
theorem updatePhase_pres (api : Api) (key : String) (st st' : St)
    (hg : st.tasks key ≠ some "finished") (h : updatePhase api key st = some st') :
    ∀ k, st.tasks k = some "finished" → st'.tasks k = some "finished" := by
  intro k hk
  have hkk : k ≠ key := fun he => hg (he ▸ hk)
  rw [updatePhase_tasks api key st st' h k hkk]
  exact hk

theorem setTask_fin_pres (st : St) (key k : String)
    (hk : st.tasks k = some "finished") :
    (setTask st key "finished").tasks k = some "finished" := by
  rw [setTask_tasks]
  by_cases h : k = key
  · rw [if_pos h]
  · rw [if_neg h]; exact hk

theorem commentChildren_nil_eq (api : Api) (f : Nat) (fc : Bool) (mc : Option Nat)
    (st : St) : commentChildren api (f + 1) [] fc mc st = some st := rfl

theorem postChildren_nil_eq (api : Api) (f : Nat) (fc : Bool) (mc : Option Nat)
    (st : St) : postChildren api (f + 1) [] fc mc st = some st := rfl

/-- Simultaneous induction for C3: no fetch function, pagination loop or
child fan-out ever moves any task-cache entry out of `finished`. -/
theorem fetch_pres_all : ∀ (fuel : Nat) (api : Api),
    (∀ c, PreservesFin (fetchRun api fuel c)) ∧
    (∀ pages tag parent coll fc mc cnt,
      PreservesFin (fun st => commentPages api fuel pages tag parent coll fc mc cnt st)) ∧
    (∀ items fc mc, PreservesFin (commentChildren api fuel items fc mc)) ∧
    (∀ pages tag parent coll fc mc mp cnt,
      PreservesFin (fun st => postPages api fuel pages tag parent coll fc mc mp cnt st)) ∧
    (∀ items fc mc, PreservesFin (postChildren api fuel items fc mc)) := by
  intro fuel
  induction fuel with
  | zero =>
    intro api
    refine ⟨?_, ?_, ?_, ?_, ?_⟩
    · intro c st st' k hg _; exact Option.noConfusion hg
    · intro pages tag parent coll fc mc cnt st st' k hg _; exact Option.noConfusion hg
    · intro items fc mc st st' k hg _; exact Option.noConfusion hg
    · intro pages tag parent coll fc mc mp cnt st st' k hg _; exact Option.noConfusion hg
    · intro items fc mc st st' k hg _; exact Option.noConfusion hg
  | succ f ih =>
    intro api
    obtain ⟨ihR, ihCP, ihCC, ihPP, ihPC⟩ := ih api
    refine ⟨?_, ?_, ?_, ?_, ?_⟩
    · -- fetchRun
      intro c st st' k hg hf
      cases c with
      | comment item_id this_item fc mc =>
        rw [fetchRun_comment_eq] at hg
        by_cases hfin : st.tasks (toString item_id) = some "finished"
        · rw [if_pos hfin] at hg
          rcases Option.some.inj hg with rfl
          exact hf
        · rw [if_neg hfin] at hg
          cases this_item with
          | some cm =>
            simp only at hg
            cases howner : (match truthyId cm.owner_id with
                | some o => fetchRun api f
                    (.profile (toString o) false none false false false none none) st
                | none => some st) with
            | none => rw [howner] at hg; exact Option.noConfusion hg
            | some st3 =>
              rw [howner] at hg
              simp only at hg
              have hf3 : st3.tasks k = some "finished" := by
                cases htru : truthyId cm.owner_id with
                | some o =>
                  rw [htru] at howner
                  exact ihR _ st st3 k howner hf
                | none =>
                  rw [htru] at howner
                  rcases Option.some.inj howner with rfl
                  exact hf
              cases hpg : (if fc = true ∧ cm.comments_count ≠ 0 then
                  commentPages api f (api.commentReplies item_id)
                    (.pageCommentReplies item_id) (toString cm.id)
                    "facebook/comment/replies" fc mc 0 st3
                else some st3) with
              | none => rw [hpg] at hg; exact Option.noConfusion hg
              | some st4 =>
                rw [hpg] at hg
                simp only at hg
                rcases Option.some.inj hg with rfl
                have hf4 : st4.tasks k = some "finished" := by
                  by_cases hfc : fc = true ∧ cm.comments_count ≠ 0
                  · rw [if_pos hfc] at hpg
                    exact ihCP _ _ _ _ _ _ _ st3 st4 k hpg hf3
                  · rw [if_neg hfc] at hpg
                    rcases Option.some.inj hpg with rfl
                    exact hf3
                exact setTask_fin_pres st4 _ k hf4
          | none =>
            cases hapi : api.comment item_id with
            | err => rw [hapi] at hg; simp only at hg; exact Option.noConfusion hg
            | notFound =>
              rw [hapi] at hg
              simp only at hg
              rcases Option.some.inj hg with rfl
              exact setTask_fin_pres _ _ k hf
            | ok cm =>
              rw [hapi] at hg
              simp only at hg
              cases howner : (match truthyId cm.owner_id with
                  | some o => fetchRun api f
                      (.profile (toString o) false none false false false none none)
                      (save_comments (logCall st (.itemComment item_id)) [cm])
                  | none => some (save_comments (logCall st (.itemComment item_id)) [cm])) with
              | none => rw [howner] at hg; exact Option.noConfusion hg
              | some st3 =>
                rw [howner] at hg
                simp only at hg
                have hf3 : st3.tasks k = some "finished" := by
                  cases htru : truthyId cm.owner_id with
                  | some o =>
                    rw [htru] at howner
                    exact ihR _ _ st3 k howner hf
                  | none =>
                    rw [htru] at howner
                    rcases Option.some.inj howner with rfl
                    exact hf
                cases hpg : (if fc = true ∧ cm.comments_count ≠ 0 then
                    commentPages api f (api.commentReplies item_id)
                      (.pageCommentReplies item_id) (toString cm.id)
                      "facebook/comment/replies" fc mc 0 st3
                  else some st3) with
                | none => rw [hpg] at hg; exact Option.noConfusion hg
                | some st4 =>
                  rw [hpg] at hg
                  simp only at hg
                  rcases Option.some.inj hg with rfl
                  have hf4 : st4.tasks k = some "finished" := by
                    by_cases hfc : fc = true ∧ cm.comments_count ≠ 0
                    · rw [if_pos hfc] at hpg
                      exact ihCP _ _ _ _ _ _ _ st3 st4 k hpg hf3
                    · rw [if_neg hfc] at hpg
                      rcases Option.some.inj hpg with rfl
                      exact hf3
                  exact setTask_fin_pres st4 _ k hf4
      | post item_id upd this_item fc mc =>
        rw [fetchRun_post_eq] at hg
        by_cases hfin : st.tasks (toString item_id) = some "finished"
        · rw [if_pos hfin] at hg
          rcases Option.some.inj hg with rfl
          exact hf
        · rw [if_neg hfin] at hg
          cases hupd : (if upd then updatePhase api (toString item_id) st else some st) with
          | none => rw [hupd] at hg; exact Option.noConfusion hg
          | some stU =>
            rw [hupd] at hg
            simp only at hg
            have hfU : stU.tasks k = some "finished" := by
              by_cases hu : upd = true
              · rw [if_pos hu] at hupd
                exact updatePhase_pres api _ st stU hfin hupd k hf
              · rw [if_neg hu] at hupd
                rcases Option.some.inj hupd with rfl
                exact hf
            have hfinU : stU.tasks (toString item_id) ≠ some "finished" ∨ True := Or.inr trivial
            cases this_item with
            | some p =>
              simp only at hg
              cases howner : (match truthyId p.owner_id with
                  | some o => fetchRun api f
                      (.profile (toString o) false none false false false none none) stU
                  | none => some stU) with
              | none => rw [howner] at hg; exact Option.noConfusion hg
              | some st3 =>
                rw [howner] at hg
                simp only at hg
                have hf3 : st3.tasks k = some "finished" := by
                  cases htru : truthyId p.owner_id with
                  | some o =>
                    rw [htru] at howner
                    exact ihR _ stU st3 k howner hfU
                  | none =>
                    rw [htru] at howner
                    rcases Option.some.inj howner with rfl
                    exact hfU
                cases hgrp : (match truthyId p.group_id with
                    | some g => fetchRun api f
                        (.profile (toString g) false none false false false none none) st3
                    | none => some st3) with
                | none => rw [hgrp] at hg; exact Option.noConfusion hg
                | some st4 =>
                  rw [hgrp] at hg
                  simp only at hg
                  have hf4 : st4.tasks k = some "finished" := by
                    cases htru : truthyId p.group_id with
                    | some g =>
                      rw [htru] at hgrp
                      exact ihR _ st3 st4 k hgrp hf3
                    | none =>
                      rw [htru] at hgrp
                      rcases Option.some.inj hgrp with rfl
                      exact hf3
                  cases hpg : (if fc = true ∧ p.comments_count ≠ 0 then
                      commentPages api f (api.postComments item_id)
                        (.pagePostComments item_id) (toString p.id)
                        "facebook/post/comments" fc mc 0 st4
                    else some st4) with
                  | none => rw [hpg] at hg; exact Option.noConfusion hg
                  | some st5 =>
                    rw [hpg] at hg
                    simp only at hg
                    rcases Option.some.inj hg with rfl
                    have hf5 : st5.tasks k = some "finished" := by
                      by_cases hfc : fc = true ∧ p.comments_count ≠ 0
                      · rw [if_pos hfc] at hpg
                        exact ihCP _ _ _ _ _ _ _ st4 st5 k hpg hf4
                      · rw [if_neg hfc] at hpg
                        rcases Option.some.inj hpg with rfl
                        exact hf4
                    exact setTask_fin_pres st5 _ k hf5
            | none =>
              cases hapi : api.post item_id with
              | err => rw [hapi] at hg; simp only at hg; exact Option.noConfusion hg
              | notFound =>
                rw [hapi] at hg
                simp only at hg
                rcases Option.some.inj hg with rfl
                exact setTask_fin_pres _ _ k hfU
              | ok p =>
                rw [hapi] at hg
                simp only at hg
                cases howner : (match truthyId p.owner_id with
                    | some o => fetchRun api f
                        (.profile (toString o) false none false false false none none)
                        (save_posts (logCall stU (.itemPost item_id)) [p])
                    | none => some (save_posts (logCall stU (.itemPost item_id)) [p])) with
                | none => rw [howner] at hg; exact Option.noConfusion hg
                | some st3 =>
                  rw [howner] at hg
                  simp only at hg
                  have hf3 : st3.tasks k = some "finished" := by
                    cases htru : truthyId p.owner_id with
                    | some o =>
                      rw [htru] at howner
                      exact ihR _ _ st3 k howner hfU
                    | none =>
                      rw [htru] at howner
                      rcases Option.some.inj howner with rfl
                      exact hfU
                  cases hgrp : (match truthyId p.group_id with
                      | some g => fetchRun api f
                          (.profile (toString g) false none false false false none none) st3
                      | none => some st3) with
                  | none => rw [hgrp] at hg; exact Option.noConfusion hg
                  | some st4 =>
                    rw [hgrp] at hg
                    simp only at hg
                    have hf4 : st4.tasks k = some "finished" := by
                      cases htru : truthyId p.group_id with
                      | some g =>
                        rw [htru] at hgrp
                        exact ihR _ st3 st4 k hgrp hf3
                      | none =>
                        rw [htru] at hgrp
                        rcases Option.some.inj hgrp with rfl
                        exact hf3
                    cases hpg : (if fc = true ∧ p.comments_count ≠ 0 then
                        commentPages api f (api.postComments item_id)
                          (.pagePostComments item_id) (toString p.id)
                          "facebook/post/comments" fc mc 0 st4
                      else some st4) with
                    | none => rw [hpg] at hg; exact Option.noConfusion hg
                    | some st5 =>
                      rw [hpg] at hg
                      simp only at hg
                      rcases Option.some.inj hg with rfl
                      have hf5 : st5.tasks k = some "finished" := by
                        by_cases hfc : fc = true ∧ p.comments_count ≠ 0
                        · rw [if_pos hfc] at hpg
                          exact ihCP _ _ _ _ _ _ _ st4 st5 k hpg hf4
                        · rw [if_neg hfc] at hpg
                          rcases Option.some.inj hpg with rfl
                          exact hf4
                      exact setTask_fin_pres st5 _ k hf5
      | profile item_id upd this_item ffp fcp fc mp mc =>
        rw [fetchRun_profile_eq] at hg
        by_cases hfin : st.tasks item_id = some "finished"
        · rw [if_pos hfin] at hg
          rcases Option.some.inj hg with rfl
          exact hf
        · rw [if_neg hfin] at hg
          cases hupd : (if upd then updatePhase api item_id st else some st) with
          | none => rw [hupd] at hg; exact Option.noConfusion hg
          | some stU =>
            rw [hupd] at hg
            simp only at hg
            have hfU : stU.tasks k = some "finished" := by
              by_cases hu : upd = true
              · rw [if_pos hu] at hupd
                exact updatePhase_pres api _ st stU hfin hupd k hf
              · rw [if_neg hu] at hupd
                rcases Option.some.inj hupd with rfl
                exact hf
            have tail : ∀ (pr : Profile) (st2 : St), st2.tasks k = some "finished" →
                (match (if ffp then
                    postPages api f (api.profileFeed item_id)
                      (.pageProfileFeed item_id) (toString pr.id)
                      "facebook/profile/feed/posts" fc mc mp 0 st2
                  else some st2) with
                 | none => none
                 | some st3 =>
                   match (if fcp then
                       postPages api f (api.profileCommunity item_id)
                         (.pageProfileCommunity item_id) (toString pr.id)
                         "facebook/profile/community/posts" fc mc mp 0 st3
                     else some st3) with
                   | none => none
                   | some st4 => some (setTask st4 item_id "finished")) = some st' →
                st'.tasks k = some "finished" := by
              intro pr st2 hf2 htail
              cases hfd : (if ffp then
                  postPages api f (api.profileFeed item_id)
                    (.pageProfileFeed item_id) (toString pr.id)
                    "facebook/profile/feed/posts" fc mc mp 0 st2
                else some st2) with
              | none => rw [hfd] at htail; exact Option.noConfusion htail
              | some st3 =>
                rw [hfd] at htail
                simp only at htail
                have hf3 : st3.tasks k = some "finished" := by
                  by_cases hffp : ffp = true
                  · rw [if_pos hffp] at hfd
                    exact ihPP _ _ _ _ _ _ _ _ st2 st3 k hfd hf2
                  · rw [if_neg hffp] at hfd
                    rcases Option.some.inj hfd with rfl
                    exact hf2
                cases hcd : (if fcp then
                    postPages api f (api.profileCommunity item_id)
                      (.pageProfileCommunity item_id) (toString pr.id)
                      "facebook/profile/community/posts" fc mc mp 0 st3
                  else some st3) with
                | none => rw [hcd] at htail; exact Option.noConfusion htail
                | some st4 =>
                  rw [hcd] at htail
                  simp only at htail
                  rcases Option.some.inj htail with rfl
                  have hf4 : st4.tasks k = some "finished" := by
                    by_cases hfcp : fcp = true
                    · rw [if_pos hfcp] at hcd
                      exact ihPP _ _ _ _ _ _ _ _ st3 st4 k hcd hf3
                    · rw [if_neg hfcp] at hcd
                      rcases Option.some.inj hcd with rfl
                      exact hf3
                  exact setTask_fin_pres st4 _ k hf4
            cases this_item with
            | some pr =>
              simp only at hg
              exact tail pr stU hfU hg
            | none =>
              cases hapi : api.profile item_id with
              | err => rw [hapi] at hg; simp only at hg; exact Option.noConfusion hg
              | notFound =>
                rw [hapi] at hg
                simp only at hg
                rcases Option.some.inj hg with rfl
                exact setTask_fin_pres _ _ k hfU
              | ok pr =>
                rw [hapi] at hg
                simp only at hg
                exact tail pr (save_profiles (logCall stU (.itemProfile item_id)) [pr]) hfU hg
      | search request upd this_item fc mp mc fd td ty =>
        rw [fetchRun_search_eq] at hg
        by_cases hfin : st.tasks (searchItemId request fd td ty) = some "finished"
        · rw [if_pos hfin] at hg
          rcases Option.some.inj hg with rfl
          exact hf
        · rw [if_neg hfin] at hg
          cases hupd : (if upd then updatePhase api (searchItemId request fd td ty) st
              else some st) with
          | none => rw [hupd] at hg; exact Option.noConfusion hg
          | some stU =>
            rw [hupd] at hg
            simp only at hg
            have hfU : stU.tasks k = some "finished" := by
              by_cases hu : upd = true
              · rw [if_pos hu] at hupd
                exact updatePhase_pres api _ st stU hfin hupd k hf
              · rw [if_neg hu] at hupd
                rcases Option.some.inj hupd with rfl
                exact hf
            have tail : ∀ (s0 : SearchItem) (st2 : St), st2.tasks k = some "finished" →
                (match postPages api f (api.searchPosts (searchItemId request fd td ty))
                    (.pageSearchPosts (searchItemId request fd td ty)) s0.id
                    "facebook/search/posts" fc mc mp 0 st2 with
                 | none => none
                 | some st3 => some (setTask st3 (searchItemId request fd td ty)
                     "finished")) = some st' →
                st'.tasks k = some "finished" := by
              intro s0 st2 hf2 htail
              cases hpp : postPages api f (api.searchPosts (searchItemId request fd td ty))
                  (.pageSearchPosts (searchItemId request fd td ty)) s0.id
                  "facebook/search/posts" fc mc mp 0 st2 with
              | none => rw [hpp] at htail; exact Option.noConfusion htail
              | some st3 =>
                rw [hpp] at htail
                simp only at htail
                rcases Option.some.inj htail with rfl
                exact setTask_fin_pres st3 _ k (ihPP _ _ _ _ _ _ _ _ st2 st3 k hpp hf2)
            cases this_item with
            | some s0 =>
              simp only at hg
              exact tail s0 stU hfU hg
            | none =>
              cases hapi : api.search (searchItemId request fd td ty) with
              | err => rw [hapi] at hg; simp only at hg; exact Option.noConfusion hg
              | notFound =>
                rw [hapi] at hg
                simp only at hg
                rcases Option.some.inj hg with rfl
                exact setTask_fin_pres _ _ k hfU
              | ok s0 =>
                rw [hapi] at hg
                simp only at hg
                exact tail s0 (save_searches_for_posts
                  (logCall stU (.itemSearch (searchItemId request fd td ty))) [s0]) hfU hg
    · -- commentPages
      intro pages tag parent coll fc mc cnt st st' k hg hf
      cases pages with
      | nil => exact Option.noConfusion hg
      | cons p rest =>
        simp only at hg
        rw [commentPages_cons_eq] at hg
        by_cases hok : p.status ≠ "ok"
        · rw [if_pos hok] at hg
          exact Option.noConfusion hg
        · rw [if_neg hok] at hg
          by_cases hemp : p.items.isEmpty = true
          · rw [if_pos hemp] at hg
            rcases Option.some.inj hg with rfl
            exact hf
          · rw [if_neg hemp] at hg
            cases hch : commentChildren api f p.items fc mc (logCall st tag) with
            | none => rw [hch] at hg; exact Option.noConfusion hg
            | some st2 =>
              rw [hch] at hg
              simp only at hg
              have hf2 : st2.tasks k = some "finished" :=
                ihCC p.items fc mc (logCall st tag) st2 k hch hf
              by_cases hmax : maxReached mc (cnt + p.items.length) = true
              · rw [if_pos hmax] at hg
                rcases Option.some.inj hg with rfl
                exact hf2
              · rw [if_neg hmax] at hg
                by_cases hnp : p.has_next_page = false
                · rw [if_pos hnp] at hg
                  rcases Option.some.inj hg with rfl
                  exact hf2
                · rw [if_neg hnp] at hg
                  exact ihCP rest tag parent coll fc mc (cnt + p.items.length) _ st' k hg hf2
    · -- commentChildren
      intro items fc mc st st' k hg hf
      cases items with
      | nil =>
        rw [commentChildren_nil_eq] at hg
        rcases Option.some.inj hg with rfl
        exact hf
      | cons cm rest =>
        rw [commentChildren_cons_eq] at hg
        cases hstep : fetchRun api f (.comment cm.id (some cm) fc mc) st with
        | none => rw [hstep] at hg; exact Option.noConfusion hg
        | some st1 =>
          rw [hstep] at hg
          simp only at hg
          exact ihCC rest fc mc st1 st' k hg (ihR _ st st1 k hstep hf)
    · -- postPages
      intro pages tag parent coll fc mc mp cnt st st' k hg hf
      cases pages with
      | nil => exact Option.noConfusion hg
      | cons p rest =>
        simp only at hg
        rw [postPages_cons_eq] at hg
        by_cases hok : p.status ≠ "ok"
        · rw [if_pos hok] at hg
          exact Option.noConfusion hg
        · rw [if_neg hok] at hg
          by_cases hemp : p.items.isEmpty = true
          · rw [if_pos hemp] at hg
            rcases Option.some.inj hg with rfl
            exact hf
          · rw [if_neg hemp] at hg
            cases hch : postChildren api f p.items fc mc (logCall st tag) with
            | none => rw [hch] at hg; exact Option.noConfusion hg
            | some st2 =>
              rw [hch] at hg
              simp only at hg
              have hf2 : st2.tasks k = some "finished" :=
                ihPC p.items fc mc (logCall st tag) st2 k hch hf
              by_cases hmax : maxReached mp (cnt + p.items.length) = true
              · rw [if_pos hmax] at hg
                rcases Option.some.inj hg with rfl
                exact hf2
              · rw [if_neg hmax] at hg
                by_cases hnp : p.has_next_page = false
                · rw [if_pos hnp] at hg
                  rcases Option.some.inj hg with rfl
                  exact hf2
                · rw [if_neg hnp] at hg
                  exact ihPP rest tag parent coll fc mc mp (cnt + p.items.length) _ st' k hg hf2
    · -- postChildren
      intro items fc mc st st' k hg hf
      cases items with
      | nil =>
        rw [postChildren_nil_eq] at hg
        rcases Option.some.inj hg with rfl
        exact hf
      | cons p rest =>
        rw [postChildren_cons_eq] at hg
        cases hstep : fetchRun api f (.post p.id false (some p) fc mc) st with
        | none => rw [hstep] at hg; exact Option.noConfusion hg
        | some st1 =>
          rw [hstep] at hg
          simp only at hg
          exact ihPC rest fc mc st1 st' k hg (ihR _ st st1 k hstep hf)

/-- C3: resumability.  (1) Every fetch invocation (post, comment, profile
or search) whose item is already `finished` in the Task State Store
returns with the run state unchanged — the same task cache, the same
output sinks and the same remote-call log, i.e. zero remote calls.
(2) No fetch invocation (hence no pagination loop or child fan-out inside
one) ever moves any task-cache entry out of `finished`. -/
theorem claim3_resumability :
    (∀ (api : Api) (f : Nat) (c : FetchCall) (st : St),
      st.tasks c.key = some "finished" → fetchRun api (f + 1) c st = some st) ∧
    (∀ (api : Api) (fuel : Nat) (c : FetchCall) (st st' : St) (k : String),
      fetchRun api fuel c st = some st' → st.tasks k = some "finished" →
      st'.tasks k = some "finished") := by
  constructor
  · intro api f c st h
    cases c with
    | comment item_id this_item fc mc =>
      rw [fetchRun_comment_eq]
      simp only [FetchCall.key] at h
      rw [if_pos h]
    | post item_id upd this_item fc mc =>
      rw [fetchRun_post_eq]
      simp only [FetchCall.key] at h
      rw [if_pos h]
    | profile item_id upd this_item ffp fcp fc mp mc =>
      rw [fetchRun_profile_eq]
      simp only [FetchCall.key] at h
      rw [if_pos h]
    | search request upd this_item fc mp mc fd td ty =>
      rw [fetchRun_search_eq]
      simp only [FetchCall.key] at h
      rw [if_pos h]
  · intro api fuel c st st' k hg hf
    exact (fetch_pres_all fuel api).1 c st st' k hg hf

/-- C3 witness: a task cache with `"7"` finished is returned untouched by
a `fetch_comment` of item 7, and stays `finished` through a
`fetch_comment` of item 8. -/
theorem claim3_resumability_witness :
    fetchRun apiNF 1 (.comment 7 none false none) stFin = some stFin ∧
    (setTask stFin "8" "finished").tasks "7" = some "finished" := by
  constructor
  · exact claim3_resumability.1 apiNF 0 (.comment 7 none false none) stFin (by decide)
  · have hrun : fetchRun apiNF 1 (.comment 8 (some ⟨8, none, 0⟩) false none) stFin =
        some (setTask stFin "8" "finished") := by rfl
    exact claim3_resumability.2 apiNF 1 (.comment 8 (some ⟨8, none, 0⟩) false none)
      stFin (setTask stFin "8" "finished") "7" hrun (by decide)

end SMApi
